import Mathlib

/-!
Verification of `dynamodb-expressions` (henhal/dynamodb-expressions).

This file shallowly embeds the expression-building engine of the library:
the placeholder symbol table (`ExpressionBuilder.ts`: `addUniqueMapping`,
`addName`, `addValue`, `addOperand`), the condition tree and its renderer
(`Condition.ts`, `ConditionExpressionBuilder.ts`), and the update-action
tree and its renderer (`UpdateAction.ts`, `UpdateExpressionBuilder.ts`).

Modelling conventions:
* JavaScript runtime values are modelled by the inductive type `JSVal`;
  strict equality `===` is modelled by `jsStrictEq` (structural on
  primitives; distinct non-primitive literals are never identical,
  mirroring reference equality of distinct object/array literals).
* The `ExpressionAttributeNames` / `ExpressionAttributeValues` objects are
  modelled as association lists in insertion order (JavaScript objects
  with string keys preserve insertion order); an empty list plays the role
  of the lazily-initialized absent table.
* `Math.floor(Math.random() * 1000)` draws are modelled by an explicit
  finite stream of naturals (`rand : List Nat`) threaded through the
  state; the collision-retry loop consumes one draw per retry and the
  whole computation returns `none` when the stream is exhausted while a
  retry is still needed.  A run of the JavaScript code corresponds to a
  sufficiently long stream of draws `< 1000`.
* Template-literal stringification of a natural number (`` `${r}` ``) is
  modelled by the executable decimal printer `natRepr`.
-/

set_option maxHeartbeats 1000000

namespace DynamoExpr

/-- JavaScript runtime values as used by the library: strings, numbers
(only integral numbers occur in the spec's examples), booleans, `null`,
`undefined`, arrays, plain objects and `Set`s. -/
inductive JSVal where
  | str (s : String)
  | num (n : Int)
  | bool (b : Bool)
  | null
  | undef
  | list (vs : List JSVal)
  | obj (fields : List (String × JSVal))
  | set (vs : List JSVal)
deriving Repr

/-- JavaScript strict equality `===` on `JSVal`.  Primitives compare by
value; arrays, objects and sets compare by reference, and since every
occurrence of such a literal in an input denotes a fresh object, two
non-primitive values are never strictly equal in this model. -/
def jsStrictEq : JSVal → JSVal → Bool
  | .str a, .str b => a == b
  | .num a, .num b => a == b
  | .bool a, .bool b => a == b
  | .null, .null => true
  | .undef, .undef => true
  | _, _ => false

/-- One decimal digit as a character (`d` is taken mod 10). -/
def digitChar (d : Nat) : Char := Char.ofNat (48 + d % 10)

/-- Fuel-indexed decimal digit printer (most significant digit first). -/
def natReprGo : Nat → Nat → List Char
  | 0, _ => []
  | fuel + 1, n =>
    if n < 10 then [digitChar n]
    else natReprGo fuel (n / 10) ++ [digitChar (n % 10)]

/-- Decimal rendering of a natural number, modelling JavaScript template
literal interpolation `` `${r}` `` of a non-negative integer. -/
def natRepr (n : Nat) : String := ⟨natReprGo (n + 1) n⟩

/-- Association-list lookup by string key (JavaScript `key in obj` /
`obj[key]` on a string-keyed object). -/
def alookup (k : String) : List (String × α) → Option α
  | [] => none
  | (k', v) :: rest => if k = k' then some v else alookup k rest

/--
`addUniqueMapping(values, key, value)` from `ExpressionBuilder.ts`:

```
let uniqueKey = key;
while (uniqueKey in values && values[uniqueKey] !== value) {
  uniqueKey = `${key}_${Math.floor(Math.random() * 1000)}`;
}
values[uniqueKey] = value;
return uniqueKey;
```

`eqv` is the strict-equality test used by `!==` (string equality for the
names table, `jsStrictEq` for the values table).  The auxiliary function
recurses on the remaining random draws; the candidate of each retry is
built from the *original* `key`.  Writing an existing key with a
strictly-equal value leaves an insertion-ordered object unchanged, and a
fresh key is appended at the end.
-/
def addUniqueMappingAux (eqv : α → α → Bool) (table : List (String × α))
    (key : String) (value : α) :
    String → List Nat → Option (String × List (String × α) × List Nat)
  | cand, rand =>
    match alookup cand table with
    | none => some (cand, table ++ [(cand, value)], rand)
    | some v =>
      if eqv v value then some (cand, table, rand)
      else
        match rand with
        | [] => none
        | r :: rest =>
          addUniqueMappingAux eqv table key value (key ++ "_" ++ natRepr r) rest

/-- `addUniqueMapping` starting from the candidate `key` itself. -/
def addUniqueMapping (eqv : α → α → Bool) (table : List (String × α))
    (key : String) (value : α) (rand : List Nat) :
    Option (String × List (String × α) × List Nat) :=
  addUniqueMappingAux eqv table key value key rand

/-- The mutable builder state: the two placeholder tables of `Params`
plus the stream of pending random draws. -/
structure BState where
  names : List (String × String)
  values : List (String × JSVal)
  rand : List Nat
deriving Repr

/-- The empty builder state (fresh `params` object) with random draws
`rand`. -/
def initState (rand : List Nat) : BState := ⟨[], [], rand⟩

/-- JavaScript `s.split(c)` for a one-character separator, on character
lists.  Always returns a non-empty list of (possibly empty) chunks. -/
def splitChar (c : Char) : List Char → List (List Char)
  | [] => [[]]
  | a :: rest =>
    if a = c then [] :: splitChar c rest
    else
      match splitChar c rest with
      | [] => [[a]]
      | h :: t => (a :: h) :: t

/-- JavaScript `Array.prototype.join(sep)`. -/
def jsJoin (sep : String) : List String → String
  | [] => ""
  | [x] => x
  | x :: xs => x ++ sep ++ jsJoin sep xs

/--
`ExpressionBuilder.addName(path, prefix)`:

```
return path.split('.').map(part => {
  const [key, ...elements] = part.split('[');
  const escapedName = addUniqueMapping(names, `#${prefix}${key}`, key);
  prefix += `${part}_`;
  return [escapedName, ...elements].join('[');
}).join('.');
```

The fold carries the accumulated `prefix`, the names table and the random
stream.  `values` is untouched.
-/
def addNameParts (pfx : String) (parts : List (List Char))
    (names : List (String × String)) (rand : List Nat) :
    Option (List String × List (String × String) × List Nat) :=
  match parts with
  | [] => some ([], names, rand)
  | part :: rest =>
    match splitChar '[' part with
    | [] => none
    | keyCs :: elements =>
      let key : String := ⟨keyCs⟩
      match addUniqueMapping (fun a b => a == b) names ("#" ++ pfx ++ key) key rand with
      | none => none
      | some (esc, names', rand') =>
        let piece := jsJoin "[" (esc :: elements.map (fun e => (⟨e⟩ : String)))
        match addNameParts (pfx ++ (⟨part⟩ : String) ++ "_") rest names' rand' with
        | none => none
        | some (pieces, names'', rand'') => some (piece :: pieces, names'', rand'')

/-- `addName` on the builder state. -/
def addName (path : String) (pfx : String) (st : BState) :
    Option (String × BState) :=
  match addNameParts pfx (splitChar '.' path.data) st.names st.rand with
  | none => none
  | some (pieces, names', rand') =>
    some (jsJoin "." pieces, { st with names := names', rand := rand' })

/-- `ExpressionBuilder.addValue(value, prefix)`:
`addUniqueMapping(values, ':' + prefix, value)`. -/
def addValueBase (value : JSVal) (pfx : String) (st : BState) :
    Option (String × BState) :=
  match addUniqueMapping jsStrictEq st.values (":" ++ pfx) value st.rand with
  | none => none
  | some (esc, values', rand') =>
    some (esc, { st with values := values', rand := rand' })

/-- The two concrete builders override `addValue`, prepending a fixed
marker to the caller-supplied prefix: `cond_` in
`ConditionExpressionBuilder`, `val_` in `UpdateExpressionBuilder`. -/
inductive BuilderKind where
  | cond
  | upd
deriving DecidableEq, Repr

def builderValueMarker : BuilderKind → String
  | .cond => "cond_"
  | .upd => "val_"

/-- The builder's (virtual) `addValue`, as called from `addOperand`. -/
def addValueFor (bk : BuilderKind) (value : JSVal) (pfx : String)
    (st : BState) : Option (String × BState) :=
  addValueBase value (builderValueMarker bk ++ pfx) st

/-- The operand type argument of `addOperand`. -/
inductive OperandType where
  | name
  | value
deriving DecidableEq, Repr

/-- First match of the regex `/#[^)]+/` in a character list: returns
`(before, run, after)` where the matched substring is `'#' :: run`,
`run` is the maximal non-empty run of non-`')'` characters following a
`'#'`, and the input is `before ++ '#' :: run ++ after`.  A `'#'`
immediately followed by `')'` (or at the end) does not match and
scanning continues after it. -/
def findHashMatch : List Char → Option (List Char × List Char × List Char)
  | [] => none
  | c :: rest =>
    if c = '#' then
      let run := rest.takeWhile (fun ch => ch ≠ ')')
      if run.isEmpty then
        match findHashMatch rest with
        | none => none
        | some (pre, run', post) => some ('#' :: pre, run', post)
      else some ([], run, rest.dropWhile (fun ch => ch ≠ ')'))
    else
      match findHashMatch rest with
      | none => none
      | some (pre, run', post) => some (c :: pre, run', post)

/-- JavaScript `String(x)` for the values that can reach the
name-default branch of `addOperand` (in practice only strings do). -/
def jsToString : JSVal → String
  | .str s => s
  | .num n => if n < 0 then "-" ++ natRepr n.natAbs else natRepr n.natAbs
  | .bool b => if b then "true" else "false"
  | .null => "null"
  | .undef => "undefined"
  | .list _ => ""
  | .obj _ => "[object Object]"
  | .set _ => "[object Set]"

/--
`ExpressionBuilder.addOperand(operand, defaultType, prefix)`:

```
if (typeof operand === 'string') {
  if (operand[0] === ':') {
    return this.addValue(operand.substring(1), prefix);
  } else if (operand.includes('#')) {
    return operand.replace(/#[^)]+/, s => this.addName(s.substring(1), prefix));
  }
}
if (defaultType === 'name') {
  return this.addName(String(operand), prefix);
} else {
  return this.addValue(operand, prefix);
}
```

`this.addValue` dispatches to the overriding builder's version
(`addValueFor bk`).  `String.prototype.replace` without the `g` flag
replaces only the first match; when the regex does not match at all
(every `#` is followed by `)` or ends the string) the operand is
returned unchanged and nothing is bound.
-/
def addOperand (bk : BuilderKind) (operand : JSVal) (dt : OperandType)
    (pfx : String) (st : BState) : Option (String × BState) :=
  match operand with
  | .str s =>
    match s.data with
    | ':' :: tail => addValueFor bk (.str ⟨tail⟩) pfx st
    | cs =>
      if cs.contains '#' then
        match findHashMatch cs with
        | none => some (⟨cs⟩, st)
        | some (pre, run, post) =>
          match addName (⟨run⟩ : String) pfx st with
          | none => none
          | some (placeholder, st') =>
            some ((⟨pre⟩ : String) ++ placeholder ++ (⟨post⟩ : String), st')
      else
        match dt with
        | .name => addName (⟨cs⟩ : String) pfx st
        | .value => addValueFor bk (.str ⟨cs⟩) pfx st
  | v =>
    match dt with
    | .name => addName (jsToString v) pfx st
    | .value => addValueFor bk v pfx st

/-! ## Condition tree (`Condition.ts`) -/

/- The condition tree built by the public factory functions of
`Condition<T>`.  In the source each node is a pair of closures
(`build`, `evaluate`); here the node is the tag-and-operand tree those
closures close over, and `buildCond` / `evalCond` below are the two
closures by recursion on the tag.  `CondVal` is `ConditionValue<T> =
T | Condition<T>`; `Condition.and/or/not` accept `ConditionValue`s and
wrap literals via `Condition.from`. -/
mutual
inductive Cond where
  | comparator (op : String) (value : JSVal)
  | between (v1 v2 : JSVal)
  | inList (vs : List JSVal)
  | func (f : String) (args : List JSVal)
  | notC (c : CondVal)
  | andC (ops : CondValList)
  | orC (ops : CondValList)
inductive CondVal where
  | lit (v : JSVal)
  | cond (c : Cond)
inductive CondValList where
  | nil
  | cons (hd : CondVal) (tl : CondValList)
end

/- `Condition.attributeNotExists()`. -/
def attributeNotExistsC : Cond := .func "attribute_not_exists" []

/-- Lexicographic order on character lists by code point, for the
string case of JavaScript's relational operators. -/
def charListLt : List Char → List Char → Bool
  | [], [] => false
  | [], _ :: _ => true
  | _ :: _, [] => false
  | a :: as, b :: bs =>
    if a.toNat < b.toNat then true
    else if b.toNat < a.toNat then false
    else charListLt as bs

/-- JavaScript `<` restricted to same-type number/string comparisons
(the only comparisons the library's evaluators are used with); mixed or
non-primitive comparands yield `false` as with `NaN` comparisons. -/
def jsLt : JSVal → JSVal → Bool
  | .num a, .num b => a < b
  | .str a, .str b => charListLt a.data b.data
  | _, _ => false

def jsLe : JSVal → JSVal → Bool
  | .num a, .num b => a ≤ b
  | .str a, .str b => charListLt a.data b.data || a == b
  | _, _ => false

/-- `typeof`/instance checks of `Condition.attributeType`'s evaluator
(`Buffer` is not modelled, so the `'B'` check is `false`). -/
def jsTypeCheck (type : JSVal) (v : JSVal) : Bool :=
  match type with
  | .str "S" => match v with | .str _ => true | _ => false
  | .str "SS" | .str "NS" | .str "BS" => match v with | .set _ => true | _ => false
  | .str "N" => match v with | .num _ => true | _ => false
  | .str "B" => false
  | .str "BOOL" => match v with | .bool _ => true | _ => false
  | .str "NULL" => match v with | .null => true | _ => false
  | .str "L" => match v with | .list _ => true | _ => false
  | .str "M" => match v with | .obj _ => true | _ => false
  | _ => false

/-- The size computed by `Condition.size`'s evaluator (`v.length`,
`v.size` or `Object.keys(v).length`). -/
def jsSize : JSVal → Nat
  | .str s => s.length
  | .list vs => vs.length
  | .set vs => vs.length
  | .obj fs => fs.length
  | _ => 0

/-- Substring containment on character lists (JavaScript
`String.prototype.includes`). -/
def strIncludes (hay needle : List Char) : Bool :=
  (List.range (hay.length + 1)).any (fun i => needle.isPrefixOf (hay.drop i))

/- The `evaluate` closure of each condition node, by recursion on the
tag.  `Condition.and` uses `every`, `Condition.or` uses `some`; the
`size` node's numeric result is used for its truthiness. -/
mutual
def evalCond : Cond → JSVal → Bool
  | .comparator op value, x =>
    match op with
    | "=" => jsStrictEq x value
    | "<>" => !(jsStrictEq x value)
    | "<" => jsLt x value
    | "<=" => jsLe x value
    | ">" => jsLt value x
    | ">=" => jsLe value x
    | _ => false
  | .between v1 v2, x => jsLe v1 x && jsLe x v2
  | .inList vs, x => vs.any (fun o => jsStrictEq o x)
  | .func f args, x =>
    match f with
    | "attribute_exists" => match x with | .undef => false | _ => true
    | "attribute_not_exists" => match x with | .undef => true | _ => false
    | "attribute_type" => jsTypeCheck (args.headD .undef) x
    | "begins_with" =>
      match x, args.headD .undef with
      | .str s, .str sub => sub.data.isPrefixOf s.data
      | _, _ => false
    | "contains" =>
      match x, args.headD .undef with
      | .str s, .str sub => strIncludes s.data sub.data
      | .set xs, .set os => os.any (fun o => xs.any (fun y => jsStrictEq y o))
      | _, _ => false
    | "size" => jsSize x != 0
    | _ => false
  | .notC c, x => !(evalCondVal c x)
  | .andC ops, x => evalCondValList true ops x
  | .orC ops, x => evalCondValList false ops x
def evalCondVal : CondVal → JSVal → Bool
  | .lit v, x => jsStrictEq x v
  | .cond c, x => evalCond c x
def evalCondValList : Bool → CondValList → JSVal → Bool
  | conj, .nil, _ => conj
  | conj, .cons h t, x =>
    if conj then evalCondVal h x && evalCondValList conj t x
    else evalCondVal h x || evalCondValList conj t x
end

/- `Condition.withDefaultValue(defaultValue)`:

```
if (defaultValue !== undefined && this.evaluate(defaultValue)) {
  return Condition.or(this, Condition.attributeNotExists());
}
return this;
```
-/
def withDefaultValue (c : Cond) (d : Option JSVal) : Cond :=
  match d with
  | some v =>
    if evalCond c v then
      .orC (.cons (.cond c) (.cons (.cond attributeNotExistsC) .nil))
    else c
  | none => c

/-- Resolve a list of value operands with indexed disambiguation
prefixes (`operands.map((operand, i) => builder.addOperand(operand,
'value', mkPfx(i)))`). -/
def addOperandValues (bk : BuilderKind) (mkPfx : Nat → String) :
    List JSVal → Nat → BState → Option (List String × BState)
  | [], _, st => some ([], st)
  | v :: vs, i, st =>
    match addOperand bk v .value (mkPfx i) st with
    | none => none
    | some (e, st') =>
      match addOperandValues bk mkPfx vs (i + 1) st' with
      | none => none
      | some (es, st'') => some (e :: es, st'')

/-- The non-recursive `build` closure of a comparator node:
`` `${addOperand(key,'name')} ${operator} ${addOperand(value,'value')}` ``. -/
def buildComparator (op : String) (value : JSVal) (key : String)
    (st : BState) : Option (String × BState) :=
  match addOperand .cond (.str key) .name "" st with
  | none => none
  | some (n, st') =>
    match addOperand .cond value .value "" st' with
    | none => none
    | some (v, st'') => some (n ++ " " ++ op ++ " " ++ v, st'')

/- The `build` closure of each condition node (against the
`ConditionExpressionBuilder`), by recursion on the tag. -/
mutual
def buildCond : Cond → String → BState → Option (String × BState)
  | .comparator op value, key, st => buildComparator op value key st
  | .between v1 v2, key, st =>
    match addOperand .cond (.str key) .name "" st with
    | none => none
    | some (n, st') =>
      match addOperandValues .cond (fun i => "between" ++ natRepr i) [v1, v2] 0 st' with
      | none => none
      | some (ops, st'') => some (n ++ " BETWEEN " ++ jsJoin " AND " ops, st'')
  | .inList vs, key, st =>
    match addOperand .cond (.str key) .name "" st with
    | none => none
    | some (n, st') =>
      match addOperandValues .cond (fun i => "in" ++ natRepr i) vs 0 st' with
      | none => none
      | some (ops, st'') => some (n ++ " IN (" ++ jsJoin ", " ops ++ ")", st'')
  | .func f args, key, st =>
    match addOperand .cond (.str key) .name "" st with
    | none => none
    | some (n, st') =>
      match addOperandValues .cond (fun i => f ++ "_arg" ++ natRepr i) args 0 st' with
      | none => none
      | some (ops, st'') =>
        some (f ++ "(" ++ jsJoin ", " (n :: ops) ++ ")", st'')
  | .notC c, key, st =>
    match buildCondVal c key st with
    | none => none
    | some (e, st') => some ("NOT (" ++ e ++ ")", st')
  | .andC ops, key, st =>
    match buildCondValList ops key st with
    | none => none
    | some (es, st') => some ("(" ++ jsJoin " AND " es ++ ")", st')
  | .orC ops, key, st =>
    match buildCondValList ops key st with
    | none => none
    | some (es, st') => some ("(" ++ jsJoin " OR " es ++ ")", st')
def buildCondVal : CondVal → String → BState → Option (String × BState)
  | .lit v, key, st => buildComparator "=" v key st
  | .cond c, key, st => buildCond c key st
def buildCondValList : CondValList → String → BState → Option (List String × BState)
  | .nil, _, st => some ([], st)
  | .cons h t, key, st =>
    match buildCondVal h key st with
    | none => none
    | some (e, st') =>
      match buildCondValList t key st' with
      | none => none
      | some (es, st'') => some (e :: es, st'')
end

/- `Condition.from(c)` (`c instanceof Condition ? c : Condition.eq(c)`). -/
def condFrom : CondVal → Cond
  | .lit v => .comparator "=" v
  | .cond c => c

/-! ## Condition sets and their renderer
(`ConditionExpressionBuilder.ts`) -/

/-- The `AND`/`OR` operator of a `CompositeCondition`. -/
inductive LogOp where
  | and
  | or
deriving DecidableEq, Repr

def logOpName : LogOp → String
  | .and => "AND"
  | .or => "OR"

/- `ConditionSet<T> = ConditionAttributes<T> | CompositeCondition<T>`.
A flat mapping's entries carry `Option CondVal`, `none` modelling a
property whose value is `undefined`. -/
mutual
inductive CondSet where
  | flat (entries : List (String × Option CondVal))
  | comp (op : LogOp) (ops : CondSetList)
inductive CondSetList where
  | nil
  | cons (hd : CondSet) (tl : CondSetList)
end

/- The flat branch of `ConditionExpressionBuilder.build`: for each
entry with a non-`undefined` value, `Condition.from(value).build(key,
this)` and push the expression. -/
def buildFlatEntries : List (String × Option CondVal) → BState →
    Option (List String × BState)
  | [], st => some ([], st)
  | (_, none) :: rest, st => buildFlatEntries rest st
  | (key, some v) :: rest, st =>
    match buildCond (condFrom v) key st with
    | none => none
    | some (e, st') =>
      match buildFlatEntries rest st' with
      | none => none
      | some (es, st'') => some (e :: es, st'')

/-
`ConditionExpressionBuilder.build(conditions)`:

```
if (conditions instanceof CompositeCondition) {
  const expressions = conditions.operands
      .map(operand => new ConditionExpressionBuilder(this.params).build(operand))
      .filter(expression => expression);
  expr = expressions.join(` ${conditions.operator} `);
  if (expressions.length > 1) { expr = `(${expr})`; }
} else {
  for (const [key, value] of Object.entries(conditions)) {
    if (value !== undefined) {
      const {expression} = Condition.from(value).build(key, this);
      this.addCondition(expression);
    }
  }
  expr = `${this.conditions.join(' AND ')}`;
}
return expr || undefined;
```

The inner `Option String` of the result is the `string | undefined`
return value; the outer `Option` is exhaustion of the random stream.
The truthiness `filter` drops both `undefined` results and empty
strings, and `expr || undefined` maps `""` to `undefined`.
-/
mutual
def buildCondSet : CondSet → BState → Option (Option String × BState)
  | .comp op ops, st =>
    match buildCondSetOps ops st with
    | none => none
    | some (results, st') =>
      let expressions := (results.filterMap id).filter (fun e => e ≠ "")
      let joined := jsJoin (" " ++ logOpName op ++ " ") expressions
      let expr := if expressions.length > 1 then "(" ++ joined ++ ")" else joined
      some (if expr = "" then none else some expr, st')
  | .flat entries, st =>
    match buildFlatEntries entries st with
    | none => none
    | some (conds, st') =>
      let expr := jsJoin " AND " conds
      some (if expr = "" then none else some expr, st')
def buildCondSetOps : CondSetList → BState → Option (List (Option String) × BState)
  | .nil, st => some ([], st)
  | .cons h t, st =>
    match buildCondSet h st with
    | none => none
    | some (r, st') =>
      match buildCondSetOps t st' with
      | none => none
      | some (rs, st'') => some (r :: rs, st'')
end

/-- `buildConditionExpression(conditions, params)` (legacy form):
returns the rendered string or `undefined`, mutating the shared
params. -/
def buildConditionExpression (conds : CondSet) (st : BState) :
    Option (Option String × BState) :=
  buildCondSet conds st

/-- `buildConditionParams({conditions, params})`: renders and throws
`Error('Cannot build condition expression for empty conditions')` when
the expression is falsy. -/
def buildConditionParams (conds : CondSet) (st : BState) :
    Option (Except String (String × BState)) :=
  match buildConditionExpression conds st with
  | none => none
  | some (none, _) =>
    some (.error "Cannot build condition expression for empty conditions")
  | some (some e, st') => some (.ok (e, st'))

/-! ## Update actions and their renderer
(`UpdateAction.ts`, `UpdateExpressionBuilder.ts`) -/

/- `SetValue` (complex SET values) and `PathOrValue<T> = T | string |
SetValue<T>`.  A string operand denotes an attribute path
(`typeof value === 'string'` branch of `buildSetOperand`); any other
plain value is a literal. -/
mutual
inductive SetVal where
  | value (v : JSVal)
  | add (a b : PathOrValue)
  | subtract (a b : PathOrValue)
  | append (a b : PathOrValue)
  | ifNotExists (p : String) (v : JSVal)
inductive PathOrValue where
  | jsv (v : JSVal)
  | sv (s : SetVal)
end

/- `buildSetOperand(key, value, builder, prefix)` and the `build`
closures of `SetValue`:

```
function buildSetOperand(key, value, builder, prefix) {
  if (value instanceof SetValue) { return value.build(key, builder); }
  if (typeof value === 'string') { return builder.addOperand(value, 'name', prefix); }
  return builder.addOperand(value, 'value', prefix);
}
```

`SetValue.value` resolves via `addOperand(value, 'value', 'set')`;
`add`/`subtract`/`append` resolve their two operands with prefixes
`add0/add1`, `sub0/sub1`, `append0/append1`; `ifNotExists` resolves the
path via `addOperand(p, 'name')` (no prefix) and the default via
`addOperand(value, 'value', 'ifnotexists')`.
-/
mutual
def buildSetVal : SetVal → String → BState → Option (String × BState)
  | .value v, _key, st => addOperand .upd v .value "set" st
  | .add a b, key, st =>
    match buildSetOperand a key "add0" st with
    | none => none
    | some (o0, st') =>
      match buildSetOperand b key "add1" st' with
      | none => none
      | some (o1, st'') => some (o0 ++ " + " ++ o1, st'')
  | .subtract a b, key, st =>
    match buildSetOperand a key "sub0" st with
    | none => none
    | some (o0, st') =>
      match buildSetOperand b key "sub1" st' with
      | none => none
      | some (o1, st'') => some (o0 ++ " - " ++ o1, st'')
  | .append a b, key, st =>
    match buildSetOperand a key "append0" st with
    | none => none
    | some (o0, st') =>
      match buildSetOperand b key "append1" st' with
      | none => none
      | some (o1, st'') => some ("list_append(" ++ o0 ++ ", " ++ o1 ++ ")", st'')
  | .ifNotExists p v, _key, st =>
    match addOperand .upd (.str p) .name "" st with
    | none => none
    | some (o0, st') =>
      match addOperand .upd v .value "ifnotexists" st' with
      | none => none
      | some (o1, st'') => some ("if_not_exists(" ++ o0 ++ ", " ++ o1 ++ ")", st'')
def buildSetOperand : PathOrValue → String → String → BState → Option (String × BState)
  | .sv s, key, _pfx, st => buildSetVal s key st
  | .jsv (.str s), _key, pfx, st => addOperand .upd (.str s) .name pfx st
  | .jsv v, _key, pfx, st => addOperand .upd v .value pfx st
end

/-- The four update-action kinds (`ActionType`). -/
inductive ActionType where
  | SET
  | REMOVE
  | ADD
  | DELETE
deriving DecidableEq, Repr

def actionTypeStr : ActionType → String
  | .SET => "SET"
  | .REMOVE => "REMOVE"
  | .ADD => "ADD"
  | .DELETE => "DELETE"

/-- `UpdateAction<T>` as built by the public factories.  `set` carries
`T | SetValue` (`Sum.inl` a plain value, `Sum.inr` a `SetValue`),
matching the `value instanceof SetValue` check inside
`UpdateAction.set`. -/
inductive UpdAct where
  | set (v : JSVal ⊕ SetVal)
  | remove
  | add (v : JSVal)
  | delete (v : JSVal)

/-- `UpdateValue<V> = V | UpdateAction<V | void>`. -/
inductive UpdVal where
  | lit (v : JSVal)
  | act (a : UpdAct)

/-- `UpdateAction.from(value)`
(`value instanceof UpdateAction ? value : UpdateAction.set(value)`). -/
def updFrom : UpdVal → UpdAct
  | .lit v => .set (Sum.inl v)
  | .act a => a

/-- The `build` closure of each update action: returns the action type
and the rendered item.

* SET: `` `${addOperand(key,'name')} = ${v.build(key, builder)}` ``
* REMOVE: `` `${addOperand(key,'name')}` ``
* ADD: `` `${addOperand(key,'name')} ${addOperand(value,'value','add')}` ``
* DELETE: like ADD with prefix `delete`.
-/
def buildUpdAct : UpdAct → String → BState → Option ((ActionType × String) × BState)
  | .set payload, key, st =>
    let sv := match payload with
      | Sum.inl v => SetVal.value v
      | Sum.inr s => s
    match addOperand .upd (.str key) .name "" st with
    | none => none
    | some (n, st') =>
      match buildSetVal sv key st' with
      | none => none
      | some (e, st'') => some ((.SET, n ++ " = " ++ e), st'')
  | .remove, key, st =>
    match addOperand .upd (.str key) .name "" st with
    | none => none
    | some (n, st') => some ((.REMOVE, n), st')
  | .add v, key, st =>
    match addOperand .upd (.str key) .name "" st with
    | none => none
    | some (n, st') =>
      match addOperand .upd v .value "add" st' with
      | none => none
      | some (val, st'') => some ((.ADD, n ++ " " ++ val), st'')
  | .delete v, key, st =>
    match addOperand .upd (.str key) .name "" st with
    | none => none
    | some (n, st') =>
      match addOperand .upd v .value "delete" st' with
      | none => none
      | some (val, st'') => some ((.DELETE, n ++ " " ++ val), st'')

/-- `UpdateExpressionBuilder.addAction(type, action)`: push onto the
bucket for `type` in the `Map<ActionType, string[]>`, creating the
bucket (at the end, in insertion order) on first use. -/
def addAction : List (ActionType × List String) → ActionType → String →
    List (ActionType × List String)
  | [], t, a => [(t, [a])]
  | (t', items) :: rest, t, a =>
    if t = t' then (t', items ++ [a]) :: rest
    else (t', items) :: addAction rest t a

/-- The entry loop of `UpdateExpressionBuilder.build`: for each entry,
`UpdateAction.from(value).build(path, this)` and `addAction`. -/
def buildUpdateEntries : List (String × UpdVal) →
    List (ActionType × List String) → BState →
    Option (List (ActionType × List String) × BState)
  | [], m, st => some (m, st)
  | (key, v) :: rest, m, st =>
    match buildUpdAct (updFrom v) key st with
    | none => none
    | some ((t, e), st') => buildUpdateEntries rest (addAction m t e) st'

/-- `[...this.actions.entries()].map(([type, actions]) =>
`${type} ${actions.join(', ')}`).join(' ')`. -/
def renderBuckets (m : List (ActionType × List String)) : String :=
  jsJoin " " (m.map (fun b => actionTypeStr b.1 ++ " " ++ jsJoin ", " b.2))

/-- `UpdateExpressionBuilder.build(attributes)`; the final
`|| undefined` maps an empty rendering to `undefined` (inner `none`). -/
def buildUpdateExpression (attrs : List (String × UpdVal)) (st : BState) :
    Option (Option String × BState) :=
  match buildUpdateEntries attrs [] st with
  | none => none
  | some (m, st') =>
    let expr := renderBuckets m
    some (if expr = "" then none else some expr, st')

/-- `buildUpdateParams({attributes, params})`: renders and throws
`Error('Cannot build update expression for empty attributes')` when the
expression is falsy. -/
def buildUpdateParams (attrs : List (String × UpdVal)) (st : BState) :
    Option (Except String (String × BState)) :=
  match buildUpdateExpression attrs st with
  | none => none
  | some (none, _) =>
    some (.error "Cannot build update expression for empty attributes")
  | some (some e, st') => some (.ok (e, st'))

/-! ## Serialization model for the JSON round-trip claim -/

/-- `JSON.parse(JSON.stringify(c))` for a `Condition` instance.  A
`Condition`'s only own enumerable properties are the two closure-valued
fields `build` and `evaluate` (constructor parameter properties);
`JSON.stringify` omits function-valued properties, so every condition
serializes to `"{}"`, which parses back to the empty plain object. -/
def conditionJSONRoundTripValue (_c : Cond) : JSVal := .obj []

/-- `Condition.from` applied to an arbitrary runtime value, modelling
the `c instanceof Condition` test: a live `Condition` instance
(`Sum.inr`) is returned as-is, anything else (`Sum.inl`), including a
deserialized record with any `operator` tag, is wrapped as
`Condition.eq(c)`. -/
def condFromValue : JSVal ⊕ Cond → Cond
  | Sum.inl v => .comparator "=" v
  | Sum.inr c => c

/-- `Condition.from(JSON.parse(JSON.stringify(c)))`. -/
def condJSONRoundTrip (c : Cond) : Cond :=
  condFromValue (Sum.inl (conditionJSONRoundTripValue c))

/-! ## Auxiliary definitions used to state the claims -/

/-- One call against a shared `params` object: `addName(path, prefix)`
or a builder's `addValue(value, prefix)` (which is `addOperand`'s value
branch). -/
inductive BCall where
  | name (path pfx : String)
  | value (bk : BuilderKind) (v : JSVal) (pfx : String)

/-- Execute one call, keeping only the state. -/
def runCall : BCall → BState → Option BState
  | .name path pfx, st => (addName path pfx st).map Prod.snd
  | .value bk v pfx, st => (addValueFor bk v pfx st).map Prod.snd

/-- Execute a sequence of `addName`/`addValue` calls against one
`params` object. -/
def runCalls : List BCall → BState → Option BState
  | [], st => some st
  | c :: cs, st =>
    match runCall c st with
    | none => none
    | some st' => runCalls cs st'

/-- A well-behaved flat-mapping key: non-empty, does not start with
`:`, and contains none of `#`, `.`, `[` — such a key flows through
`addOperand` into `addName` as a single unsplit segment. -/
def GoodKey (k : String) : Prop :=
  match k.data with
  | [] => False
  | c :: cs => c ≠ ':' ∧ '#' ∉ (c :: cs) ∧ '.' ∉ (c :: cs) ∧ '[' ∉ (c :: cs)

/-- Every entry of the names table binds the escaped form of its raw
key (`("#" ++ raw, raw)`); this holds along renders whose candidate
placeholders are always `"#" ++ raw`. -/
def NamesInv (ns : List (String × String)) : Prop :=
  ∀ e ∈ ns, e.1 = "#" ++ e.2

/-- The 1001 attribute names whose rendering occupies the base
placeholder `#a` and all 1000 suffixed placeholders `#a_0` … `#a_999`. -/
def c9Keys : List String :=
  "a" :: (List.range 1000).map (fun r => "a_" ++ natRepr r)

/-- The flat condition mapping over `c9Keys` (every value the literal
`1`, giving equality conditions). -/
def c9CondSet : CondSet :=
  .flat (c9Keys.map (fun k => (k, some (.lit (.num 1)))))

/-- The kinds of a sequence of `(kind, item)` pairs in order of first
occurrence. -/
def kindsFirstOccurrence (ps : List (ActionType × String)) : List ActionType :=
  ps.foldl (fun acc p => if p.1 ∈ acc then acc else acc ++ [p.1]) []

/-- All items of kind `t`, in input order. -/
def itemsOfKind (t : ActionType) (ps : List (ActionType × String)) : List String :=
  (ps.filter (fun p => p.1 == t)).map Prod.snd

/-- Specification-level rendering of update clauses: one clause per
kind present, kinds in order of first occurrence, each clause
`<KIND> <item0>, <item1>, ...`, clauses joined by single spaces. -/
def specGroupedRender (ps : List (ActionType × String)) : String :=
  jsJoin " "
    ((kindsFirstOccurrence ps).map
      (fun t => actionTypeStr t ++ " " ++ jsJoin ", " (itemsOfKind t ps)))

/-- The bucket map accumulated by `addAction` over a pair sequence. -/
def foldBuckets (ps : List (ActionType × String)) :
    List (ActionType × List String) :=
  ps.foldl (fun m p => addAction m p.1 p.2) []

/-! ## Helper lemmas -/

theorem strData_eq_nil {s : String} (h : s.data = []) : s = "" := by
  cases s with
  | mk d =>
    have hd : d = [] := h
    subst hd
    rfl

theorem strApp_assoc (a b c : String) : (a ++ b) ++ c = a ++ (b ++ c) := by
  cases a with
  | mk da =>
    cases b with
    | mk db =>
      cases c with
      | mk dc =>
        show String.mk ((da ++ db) ++ dc) = String.mk (da ++ (db ++ dc))
        rw [List.append_assoc]

theorem strApp_ne_empty_right (a b : String) (h : b ≠ "") : a ++ b ≠ "" := by
  intro he
  have hd : (a ++ b).data = ([] : List Char) := by rw [he]
  rw [String.data_append] at hd
  exact h (strData_eq_nil (List.append_eq_nil.mp hd).2)

theorem strApp_ne_empty_left (a b : String) (h : a ≠ "") : a ++ b ≠ "" := by
  intro he
  have hd : (a ++ b).data = ([] : List Char) := by rw [he]
  rw [String.data_append] at hd
  exact h (strData_eq_nil (List.append_eq_nil.mp hd).1)

theorem strApp_left_cancel {a b c : String} (h : a ++ b = a ++ c) : b = c := by
  have hd : a.data ++ b.data = a.data ++ c.data := by
    rw [← String.data_append, ← String.data_append, h]
  cases b with
  | mk db =>
    cases c with
    | mk dc =>
      have hbc : db = dc := List.append_cancel_left hd
      rw [hbc]

theorem strApp_ne_self (k s : String) (h : s ≠ "") : k ++ s ≠ k := by
  intro he
  apply h
  apply strData_eq_nil
  have hd : k.data ++ s.data = k.data ++ ([] : List Char) := by
    rw [List.append_nil, ← String.data_append, he]
  exact List.append_cancel_left hd

theorem alookup_append_left {t : List (String × α)} {p : String} {w : α}
    (h : alookup p t = some w) (l : List (String × α)) :
    alookup p (t ++ l) = some w := by
  induction t with
  | nil => simp [alookup] at h
  | cons e rest ih =>
    obtain ⟨k', v'⟩ := e
    simp only [alookup, List.cons_append] at h ⊢
    by_cases hpk : p = k'
    · simpa [hpk] using h
    · rw [if_neg hpk] at h ⊢
      exact ih h

theorem alookup_mem {t : List (String × α)} {p : String} {w : α}
    (h : alookup p t = some w) : (p, w) ∈ t := by
  induction t with
  | nil => simp [alookup] at h
  | cons e rest ih =>
    obtain ⟨k', v'⟩ := e
    simp only [alookup] at h
    by_cases hpk : p = k'
    · rw [if_pos hpk] at h
      cases h
      simp [hpk]
    · rw [if_neg hpk] at h
      exact List.mem_cons_of_mem _ (ih h)

/-- Structure of a successful `addUniqueMapping` run: either an
existing slot was reused (table unchanged, old value strictly equal to
the new one), or a previously-unused placeholder was bound by appending
at the end of the table. -/
theorem aumAux_structure {eqv : α → α → Bool} {t : List (String × α)}
    {k : String} {v : α} :
    ∀ {rand : List Nat} {cand u : String} {t' : List (String × α)} {r' : List Nat},
    addUniqueMappingAux eqv t k v cand rand = some (u, t', r') →
    (t' = t ∧ ∃ w, alookup u t = some w ∧ eqv w v = true) ∨
    (t' = t ++ [(u, v)] ∧ alookup u t = none) := by
  intro rand
  induction rand with
  | nil =>
    intro cand u t' r' h
    rw [addUniqueMappingAux] at h
    split at h
    · cases h
      exact Or.inr ⟨rfl, by assumption⟩
    · rename_i w hl
      split at h
      · cases h
        exact Or.inl ⟨rfl, w, hl, by assumption⟩
      · cases h
  | cons r rest ih =>
    intro cand u t' r' h
    rw [addUniqueMappingAux] at h
    split at h
    · cases h
      exact Or.inr ⟨rfl, by assumption⟩
    · rename_i w hl
      split at h
      · cases h
        exact Or.inl ⟨rfl, w, hl, by assumption⟩
      · exact ih h

theorem aum_structure {eqv : α → α → Bool} {t : List (String × α)}
    {k : String} {v : α} {rand : List Nat} {u : String}
    {t' : List (String × α)} {r' : List Nat}
    (h : addUniqueMapping eqv t k v rand = some (u, t', r')) :
    (t' = t ∧ ∃ w, alookup u t = some w ∧ eqv w v = true) ∨
    (t' = t ++ [(u, v)] ∧ alookup u t = none) :=
  aumAux_structure h

/-- Existing bindings survive a successful `addUniqueMapping`. -/
theorem aum_mono {eqv : α → α → Bool} {t : List (String × α)}
    {k : String} {v : α} {rand : List Nat} {u : String}
    {t' : List (String × α)} {r' : List Nat}
    (h : addUniqueMapping eqv t k v rand = some (u, t', r'))
    {p : String} {w : α} (hp : alookup p t = some w) :
    alookup p t' = some w := by
  rcases aum_structure h with ⟨rfl, -⟩ | ⟨rfl, -⟩
  · exact hp
  · exact alookup_append_left hp _

/-- A fresh candidate binds on the first attempt, without consuming
random draws. -/
theorem aum_fresh {eqv : α → α → Bool} {t : List (String × α)}
    {k : String} {v : α} (hl : alookup k t = none) (rand : List Nat) :
    addUniqueMapping eqv t k v rand = some (k, t ++ [(k, v)], rand) := by
  cases rand <;> simp [addUniqueMapping, addUniqueMappingAux, hl]

/-- A candidate bound to a strictly-equal value is reused unchanged,
without consuming random draws. -/
theorem aum_reuse {eqv : α → α → Bool} {t : List (String × α)}
    {k : String} {v w : α} (hl : alookup k t = some w)
    (he : eqv w v = true) (rand : List Nat) :
    addUniqueMapping eqv t k v rand = some (k, t, rand) := by
  cases rand <;> simp [addUniqueMapping, addUniqueMappingAux, hl, he]

theorem aumAux_result_shape {eqv : α → α → Bool} {t : List (String × α)}
    {k : String} {v : α} :
    ∀ {rand : List Nat} {cand u : String} {t' : List (String × α)} {r' : List Nat},
    addUniqueMappingAux eqv t k v cand rand = some (u, t', r') →
    u = cand ∨ ∃ r ∈ rand, u = k ++ "_" ++ natRepr r := by
  intro rand
  induction rand with
  | nil =>
    intro cand u t' r' h
    rw [addUniqueMappingAux] at h
    split at h
    · cases h; exact Or.inl rfl
    · split at h
      · cases h; exact Or.inl rfl
      · cases h
  | cons r rest ih =>
    intro cand u t' r' h
    rw [addUniqueMappingAux] at h
    split at h
    · cases h; exact Or.inl rfl
    · split at h
      · cases h; exact Or.inl rfl
      · rcases ih h with rfl | ⟨r0, hr0, hu⟩
        · exact Or.inr ⟨r, List.mem_cons_self r rest, rfl⟩
        · exact Or.inr ⟨r0, List.mem_cons_of_mem _ hr0, hu⟩

/-- On a genuine collision (candidate taken by a strictly-different
value), the returned placeholder is a suffixed disambiguation of the
candidate. -/
theorem aum_collision_suffixed {eqv : α → α → Bool} {t : List (String × α)}
    {k : String} {v w : α} {rand : List Nat} {u : String}
    {t' : List (String × α)} {r' : List Nat}
    (hl : alookup k t = some w) (he : eqv w v = false)
    (h : addUniqueMapping eqv t k v rand = some (u, t', r')) :
    ∃ r ∈ rand, u = k ++ "_" ++ natRepr r := by
  cases rand with
  | nil =>
    rw [addUniqueMapping, addUniqueMappingAux] at h
    split at h
    · rename_i hnone
      rw [hl] at hnone
      simp at hnone
    · rename_i w' hsome
      rw [hl] at hsome
      cases hsome
      split at h
      · rename_i htrue
        simp [he] at htrue
      · simp at h
  | cons r rest =>
    rw [addUniqueMapping, addUniqueMappingAux] at h
    split at h
    · rename_i hnone
      rw [hl] at hnone
      simp at hnone
    · rename_i w' hsome
      rw [hl] at hsome
      cases hsome
      split at h
      · rename_i htrue
        simp [he] at htrue
      · rcases aumAux_result_shape h with rfl | ⟨r0, hr0, hu⟩
        · exact ⟨r, List.mem_cons_self r rest, rfl⟩
        · exact ⟨r0, List.mem_cons_of_mem _ hr0, hu⟩

theorem natReprGo_ne_nil (f n : Nat) : natReprGo (f + 1) n ≠ [] := by
  rw [natReprGo]
  split
  · simp
  · simp

theorem natRepr_ne_empty (n : Nat) : natRepr n ≠ "" := by
  intro h
  have hd : natReprGo (n + 1) n = [] := congrArg String.data h
  exact natReprGo_ne_nil n n hd

/-- A suffixed placeholder differs from the base candidate. -/
theorem suffixed_ne_base (k : String) (r : Nat) :
    k ++ "_" ++ natRepr r ≠ k := by
  rw [strApp_assoc]
  apply strApp_ne_self
  apply strApp_ne_empty_left
  decide

/-- A flat mapping all of whose values are `undefined` renders to
`undefined` without touching the state. -/
theorem flat_allNone_renders_none :
    ∀ (entries : List (String × Option CondVal)) (st : BState),
    (∀ e ∈ entries, e.2 = none) →
    buildCondSet (.flat entries) st = some (none, st) := by
  intro entries
  induction entries with
  | nil => intro st _; rfl
  | cons e rest ih =>
    obtain ⟨k, ov⟩ := e
    intro st h
    have hov : ov = none := h (k, ov) (List.mem_cons_self _ _)
    subst hov
    have hstep : buildCondSet (.flat ((k, none) :: rest)) st
        = buildCondSet (.flat rest) st := rfl
    rw [hstep]
    exact ih st (fun e he => h e (List.mem_cons_of_mem _ he))

/-! ## The claims -/

/-- C3: `buildConditionParams({conditions: {}})` and
`buildUpdateParams({attributes: {}})` — and generally every input that
renders to zero clauses — throw, while the legacy
`buildConditionExpression` / `buildUpdateExpression` return `undefined`
for the same inputs and leave the check to the caller. -/
theorem claim3_empty_inputs_throw :
    (buildConditionParams (.flat []) (initState []) =
      some (.error "Cannot build condition expression for empty conditions"))
  ∧ (buildUpdateParams [] (initState []) =
      some (.error "Cannot build update expression for empty attributes"))
  ∧ (∀ (conds : CondSet) (st st' : BState),
      buildConditionExpression conds st = some (none, st') →
      buildConditionParams conds st =
        some (.error "Cannot build condition expression for empty conditions"))
  ∧ (∀ (attrs : List (String × UpdVal)) (st st' : BState),
      buildUpdateExpression attrs st = some (none, st') →
      buildUpdateParams attrs st =
        some (.error "Cannot build update expression for empty attributes"))
  ∧ (buildConditionExpression (.flat []) (initState []) = some (none, initState []))
  ∧ (buildUpdateExpression [] (initState []) = some (none, initState [])) := by
  refine ⟨rfl, rfl, ?_, ?_, rfl, rfl⟩
  · intro conds st st' h
    rw [buildConditionParams, h]
  · intro attrs st st' h
    rw [buildUpdateParams, h]

/-- Witness for C3 at a concrete zero-clause input (a mapping whose
only value is `undefined`). -/
theorem claim3_empty_inputs_throw_witness :
    buildConditionParams (.flat [("a", none)]) (initState []) =
      some (.error "Cannot build condition expression for empty conditions") :=
  claim3_empty_inputs_throw.2.2.1 (.flat [("a", none)]) (initState [])
    (initState []) rfl

/-- C5: a string operand starting with `:` is bound — after stripping
exactly one leading colon — as a literal value through the builder's
`addValue`, for either default role; the names table is never touched,
and `::foo` / `:#foo` yield the literals `:foo` / `#foo`. -/
theorem claim5_colon_escape :
    (∀ (tail : List Char) (bk : BuilderKind) (dt : OperandType) (pfx : String) (st : BState),
      addOperand bk (.str ⟨':' :: tail⟩) dt pfx st = addValueFor bk (.str ⟨tail⟩) pfx st)
  ∧ (∀ (bk : BuilderKind) (v : JSVal) (pfx : String) (st : BState) (e : String) (st' : BState),
      addValueFor bk v pfx st = some (e, st') → st'.names = st.names)
  ∧ (addOperand .upd (.str "::foo") .value "" (initState []) =
      some (":val_", ⟨[], [(":val_", .str ":foo")], []⟩))
  ∧ (addOperand .upd (.str ":#foo") .name "" (initState []) =
      some (":val_", ⟨[], [(":val_", .str "#foo")], []⟩)) := by
  refine ⟨fun tail bk dt pfx st => rfl, ?_, rfl, rfl⟩
  intro bk v pfx st e st' h
  rw [addValueFor, addValueBase] at h
  split at h
  · cases h
  · cases h
    rfl

/-- Witness for C5's name-table preservation at a concrete call. -/
theorem claim5_colon_escape_witness :
    (⟨[], [(":val_", JSVal.str ":foo")], []⟩ : BState).names = (initState []).names :=
  claim5_colon_escape.2.1 .upd (.str ":foo") "" (initState [])
    ":val_" ⟨[], [(":val_", .str ":foo")], []⟩ rfl

/-- C10: flat-mapping entries whose value is `undefined` are skipped
entirely — no clause, no bindings — and an all-`undefined` mapping
renders `undefined`, which the Params-style builder turns into the
empty-conditions error. -/
theorem claim10_undefined_entries_skipped :
    (∀ (key : String) (rest : List (String × Option CondVal)) (st : BState),
      buildCondSet (.flat ((key, none) :: rest)) st = buildCondSet (.flat rest) st)
  ∧ (∀ (entries : List (String × Option CondVal)) (st : BState),
      (∀ e ∈ entries, e.2 = none) →
      buildCondSet (.flat entries) st = some (none, st))
  ∧ (∀ (entries : List (String × Option CondVal)) (st : BState),
      (∀ e ∈ entries, e.2 = none) →
      buildConditionParams (.flat entries) st =
        some (.error "Cannot build condition expression for empty conditions")) := by
  refine ⟨fun key rest st => rfl, flat_allNone_renders_none, ?_⟩
  intro entries st h
  rw [buildConditionParams, buildConditionExpression,
    flat_allNone_renders_none entries st h]

/-- Witness for C10 on the concrete all-`undefined` mapping
`{a: undefined, b: undefined}`. -/
theorem claim10_undefined_entries_skipped_witness :
    buildCondSet (.flat [("a", none), ("b", none)]) (initState []) = some (none, initState [])
  ∧ buildConditionParams (.flat [("a", none), ("b", none)]) (initState []) =
      some (.error "Cannot build condition expression for empty conditions") := by
  have hmem : ∀ e ∈ ([("a", none), ("b", none)] : List (String × Option CondVal)),
      e.2 = none := by
    intro e he
    rcases List.mem_cons.mp he with rfl | he
    · rfl
    · rcases List.mem_cons.mp he with rfl | he
      · rfl
      · cases he
  exact ⟨claim10_undefined_entries_skipped.2.1 [("a", none), ("b", none)] (initState []) hmem,
    claim10_undefined_entries_skipped.2.2 [("a", none), ("b", none)] (initState []) hmem⟩

/-- C7 counterexample: conditions hold only closure-valued fields, so
`JSON.parse(JSON.stringify(c))` is the empty object, which
`Condition.from` wraps as an equality condition; the round-trip of
`Condition.gt(5)` renders `#x = :cond_` instead of `#x > :cond_`, and a
record with an unrecognized operator tag passes through as an equality
condition instead of being rejected. -/
theorem claim7_roundtrip_counterexample :
    (buildCondSet (.flat [("x", some (.cond (condJSONRoundTrip (.comparator ">" (.num 5)))))])
        (initState []) =
      some (some "#x = :cond_", ⟨[("#x", "x")], [(":cond_", .obj [])], []⟩))
  ∧ (buildCondSet (.flat [("x", some (.cond (.comparator ">" (.num 5))))]) (initState []) =
      some (some "#x > :cond_", ⟨[("#x", "x")], [(":cond_", .num 5)], []⟩))
  ∧ ("#x = :cond_" : String) ≠ "#x > :cond_"
  ∧ (condFromValue (Sum.inl (.obj [("operator", .str "UNKNOWN_OP")])) =
      .comparator "=" (.obj [("operator", .str "UNKNOWN_OP")])) :=
  ⟨rfl, rfl, by decide, rfl⟩

/-- C7 amended: `Condition.from` returns a live `Condition` instance
unchanged, but the JSON round-trip of every condition collapses to the
equality condition on the empty object (the closures are dropped by
serialization), and `Condition.from` never rejects an operator tag —
every non-`Condition` value becomes an equality condition. -/
theorem claim7_roundtrip_amended :
    (∀ c : Cond, condFromValue (Sum.inr c) = c)
  ∧ (∀ c : Cond, condJSONRoundTrip c = .comparator "=" (.obj []))
  ∧ (∀ v : JSVal, condFromValue (Sum.inl v) = .comparator "=" v) :=
  ⟨fun _ => rfl, fun _ => rfl, fun _ => rfl⟩

/-- C8: evaluating the update renderer at
`{a: UpdateAction.set(SetValue.append('a', ['B','C']))}`: the rendered
expression is `SET #a = list_append(#append0a, :val_append1)` — the
first `list_append` argument resolves through `buildSetOperand`'s
`append0` prefix into the distinct placeholder `#append0a` (bound to
`'a'` alongside `#a`), not the `#a` placeholder required by the claim,
the spec's Example 4 and the repository's own test. -/
theorem claim8_append_render :
    (buildUpdateExpression
        [("a", .act (.set (Sum.inr (.append (.jsv (.str "a")) (.jsv (.list [.str "B", .str "C"]))))))]
        (initState []) =
      some (some "SET #a = list_append(#append0a, :val_append1)",
        ⟨[("#a", "a"), ("#append0a", "a")],
         [(":val_append1", .list [.str "B", .str "C"])], []⟩))
  ∧ ("SET #a = list_append(#append0a, :val_append1)" : String) ≠
      "SET #a = list_append(#a, :val_append1)" :=
  ⟨rfl, by decide⟩

/-- C6: `withDefaultValue` wraps the condition in
`Condition.or(condition, Condition.attributeNotExists())` exactly when
the default is defined and satisfies the condition's evaluator, and
returns the condition unchanged otherwise; on attribute `x`,
`Condition.in([1,2,4]).withDefaultValue(1)` renders the wrapped
`(#x IN (…) OR attribute_not_exists(#x))` form while
`.withDefaultValue(9)` renders the plain `#x IN (…)` form. -/
theorem claim6_withDefaultValue :
    (∀ c : Cond, withDefaultValue c none = c)
  ∧ (∀ (c : Cond) (d : JSVal), evalCond c d = false →
      withDefaultValue c (some d) = c)
  ∧ (∀ (c : Cond) (d : JSVal), evalCond c d = true →
      withDefaultValue c (some d) =
        .orC (.cons (.cond c) (.cons (.cond attributeNotExistsC) .nil)))
  ∧ (buildCondSet
        (.flat [("x", some (.cond (withDefaultValue (.inList [.num 1, .num 2, .num 4]) (some (.num 1)))))])
        (initState []) =
      some (some "(#x IN (:cond_in0, :cond_in1, :cond_in2) OR attribute_not_exists(#x))",
        ⟨[("#x", "x")],
         [(":cond_in0", .num 1), (":cond_in1", .num 2), (":cond_in2", .num 4)], []⟩))
  ∧ (buildCondSet
        (.flat [("x", some (.cond (withDefaultValue (.inList [.num 1, .num 2, .num 4]) (some (.num 9)))))])
        (initState []) =
      some (some "#x IN (:cond_in0, :cond_in1, :cond_in2)",
        ⟨[("#x", "x")],
         [(":cond_in0", .num 1), (":cond_in1", .num 2), (":cond_in2", .num 4)], []⟩)) := by
  refine ⟨fun c => rfl, ?_, ?_, rfl, rfl⟩
  · intro c d h
    rw [withDefaultValue, h]
    rfl
  · intro c d h
    rw [withDefaultValue, h]
    rfl

/-- Witness for C6's conditional rewriting at concrete inputs:
`in [1,2,4]` wraps at default `1` and stays unchanged at default `9`. -/
theorem claim6_withDefaultValue_witness :
    withDefaultValue (.inList [.num 1, .num 2, .num 4]) (some (.num 1)) =
      .orC (.cons (.cond (.inList [.num 1, .num 2, .num 4]))
        (.cons (.cond attributeNotExistsC) .nil))
  ∧ withDefaultValue (.inList [.num 1, .num 2, .num 4]) (some (.num 9)) =
      .inList [.num 1, .num 2, .num 4] :=
  ⟨claim6_withDefaultValue.2.2.1 (.inList [.num 1, .num 2, .num 4]) (.num 1) rfl,
   claim6_withDefaultValue.2.1 (.inList [.num 1, .num 2, .num 4]) (.num 9) rfl⟩

/-- `expr || undefined`: a surviving expression is never empty. -/
theorem undefIfEmpty_ne {expr e : String}
    (h : (if expr = "" then (none : Option String) else some expr) = some e) :
    e ≠ "" := by
  by_cases hz : expr = ""
  · rw [if_pos hz] at h
    cases h
  · rw [if_neg hz] at h
    cases h
    exact hz

/-- A rendered condition-set expression is never the empty string
(`return expr || undefined` filters it to `undefined`). -/
theorem buildCondSet_some_ne {A : CondSet} {st st' : BState} {e : String}
    (h : buildCondSet A st = some (some e, st')) : e ≠ "" := by
  cases A with
  | flat entries =>
    rw [buildCondSet] at h
    split at h
    · cases h
    · simp only [Option.some.injEq, Prod.mk.injEq] at h
      exact undefIfEmpty_ne h.1
  | comp op ops =>
    rw [buildCondSet] at h
    split at h
    · cases h
    · simp only [Option.some.injEq, Prod.mk.injEq] at h
      exact undefIfEmpty_ne h.1

/-- A joined list whose members are non-empty is non-empty unless the
list itself is empty. -/
theorem jsJoin_ne_of_mem_ne (sep : String) :
    ∀ es : List String, es ≠ [] → (∀ x ∈ es, x ≠ "") → jsJoin sep es ≠ "" := by
  intro es
  match es with
  | [] => intro h; exact absurd rfl h
  | [x] =>
    intro _ hx
    simpa [jsJoin] using hx x (List.mem_singleton.mpr rfl)
  | x :: y :: t =>
    intro _ hx
    show x ++ sep ++ jsJoin sep (y :: t) ≠ ""
    exact strApp_ne_empty_left _ _
      (strApp_ne_empty_left _ _ (hx x (List.mem_cons_self _ _)))

/-- Every expression emitted by a condition node's `build` is
non-empty. -/
theorem buildComparator_ne_empty {op : String} {value : JSVal} {key : String}
    {st : BState} {e : String} {st' : BState}
    (h : buildComparator op value key st = some (e, st')) : e ≠ "" := by
  rw [buildComparator] at h
  split at h
  · cases h
  · split at h
    · cases h
    · cases h
      exact strApp_ne_empty_left _ _
        (strApp_ne_empty_right _ _ (by decide))

theorem buildCond_ne_empty {c : Cond} {key : String} {st : BState}
    {e : String} {st' : BState}
    (h : buildCond c key st = some (e, st')) : e ≠ "" := by
  cases c with
  | comparator op value => exact buildComparator_ne_empty h
  | between v1 v2 =>
    rw [buildCond] at h
    split at h
    · cases h
    · split at h
      · cases h
      · cases h
        exact strApp_ne_empty_left _ _
          (strApp_ne_empty_right _ _ (by decide))
  | inList vs =>
    rw [buildCond] at h
    split at h
    · cases h
    · split at h
      · cases h
      · cases h
        exact strApp_ne_empty_right _ _ (by decide)
  | func f args =>
    rw [buildCond] at h
    split at h
    · cases h
    · split at h
      · cases h
      · cases h
        exact strApp_ne_empty_right _ _ (by decide)
  | notC c0 =>
    rw [buildCond] at h
    split at h
    · cases h
    · cases h
      exact strApp_ne_empty_right _ _ (by decide)
  | andC ops =>
    rw [buildCond] at h
    split at h
    · cases h
    · cases h
      exact strApp_ne_empty_right _ _ (by decide)
  | orC ops =>
    rw [buildCond] at h
    split at h
    · cases h
    · cases h
      exact strApp_ne_empty_right _ _ (by decide)

/-- Clauses accumulated over a flat mapping are all non-empty. -/
theorem buildFlatEntries_elems_ne :
    ∀ (entries : List (String × Option CondVal)) (st : BState)
      (es : List String) (st' : BState),
    buildFlatEntries entries st = some (es, st') → ∀ x ∈ es, x ≠ "" := by
  intro entries
  induction entries with
  | nil =>
    intro st es st' h
    cases h
    intro x hx
    cases hx
  | cons ent rest ih =>
    obtain ⟨k, ov⟩ := ent
    cases ov with
    | none =>
      intro st es st' h
      exact ih st es st' h
    | some v =>
      intro st es st' h
      rw [buildFlatEntries] at h
      split at h
      · cases h
      · rename_i e0 st1 hc
        split at h
        · cases h
        · rename_i es1 st2 hr
          cases h
          intro x hx
          rcases List.mem_cons.mp hx with rfl | hx2
          · exact buildCond_ne_empty hc
          · exact ih st1 es1 _ hr x hx2

/-- A flat traversal producing no clauses makes no progress on the
state. -/
theorem buildFlatEntries_nil_eq :
    ∀ (entries : List (String × Option CondVal)) (st st' : BState),
    buildFlatEntries entries st = some ([], st') → st' = st := by
  intro entries
  induction entries with
  | nil =>
    intro st st' h
    cases h
    rfl
  | cons ent rest ih =>
    obtain ⟨k, ov⟩ := ent
    cases ov with
    | none => intro st st' h; exact ih st st' h
    | some v =>
      intro st st' h
      rw [buildFlatEntries] at h
      split at h
      · cases h
      · split at h
        · cases h
        · cases h

/- Rendering to `undefined` leaves the shared params untouched: the
dropped operands of a composite (and skipped `undefined` entries of a
flat mapping) contribute no bindings. -/
mutual
theorem condSet_none_no_mutation :
    ∀ (A : CondSet) (st st' : BState),
    buildCondSet A st = some (none, st') → st' = st
  | .flat entries, st, st', h => by
    rw [buildCondSet] at h
    split at h
    · cases h
    · rename_i conds st1 hfe
      simp only [Option.some.injEq, Prod.mk.injEq] at h
      obtain ⟨h1, rfl⟩ := h
      by_cases hz : jsJoin " AND " conds = ""
      · have hnil : conds = [] := by
          by_contra hne
          exact jsJoin_ne_of_mem_ne " AND " conds hne
            (buildFlatEntries_elems_ne entries st conds _ hfe) hz
        subst hnil
        exact buildFlatEntries_nil_eq entries st _ hfe
      · rw [if_neg hz] at h1
        cases h1
  | .comp op ops, st, st', h => by
    rw [buildCondSet] at h
    split at h
    · cases h
    · rename_i rs st1 hops
      simp only [Option.some.injEq, Prod.mk.injEq] at h
      obtain ⟨h1, rfl⟩ := h
      by_cases hlen :
          ((rs.filterMap id).filter (fun e => e ≠ "")).length > 1
      · rw [if_pos hlen] at h1
        by_cases hz :
            ("(" ++ jsJoin (" " ++ logOpName op ++ " ")
              ((rs.filterMap id).filter (fun e => e ≠ "")) ++ ")") = ""
        · exact absurd hz (strApp_ne_empty_right _ _ (by decide))
        · rw [if_neg hz] at h1
          cases h1
      · rw [if_neg hlen] at h1
        by_cases hz :
            jsJoin (" " ++ logOpName op ++ " ")
              ((rs.filterMap id).filter (fun e => e ≠ "")) = ""
        · have hnil : (rs.filterMap id).filter (fun e => e ≠ "") = [] := by
            by_contra hne
            refine jsJoin_ne_of_mem_ne _ _ hne ?_ hz
            intro x hx
            have := List.mem_filter.mp hx
            exact of_decide_eq_true this.2
          have hall : ∀ r ∈ rs, ∀ e, r = some e → e = "" := by
            intro r hr e hre
            subst hre
            by_contra hene
            have hmem : e ∈ rs.filterMap id :=
              List.mem_filterMap.mpr ⟨some e, hr, rfl⟩
            have : e ∈ (rs.filterMap id).filter (fun e => e ≠ "") :=
              List.mem_filter.mpr ⟨hmem, decide_eq_true hene⟩
            rw [hnil] at this
            cases this
          exact condSetOps_none_no_mutation ops st rs _ hops hall
        · rw [if_neg hz] at h1
          cases h1
theorem condSetOps_none_no_mutation :
    ∀ (l : CondSetList) (st : BState) (rs : List (Option String)) (st' : BState),
    buildCondSetOps l st = some (rs, st') →
    (∀ r ∈ rs, ∀ e, r = some e → e = "") → st' = st
  | .nil, st, rs, st', h, _ => by
    cases h
    rfl
  | .cons hd tl, st, rs, st', h, hall => by
    rw [buildCondSetOps] at h
    split at h
    · cases h
    · rename_i r st1 hhd
      split at h
      · cases h
      · rename_i rs1 st2 htl
        cases h
        have hr : r = none := by
          cases r with
          | none => rfl
          | some e =>
            have he1 : e = "" := hall (some e) (List.mem_cons_self _ _) e rfl
            have he2 : e ≠ "" := buildCondSet_some_ne hhd
            exact absurd he1 he2
        subst hr
        have h1 : st1 = st := condSet_none_no_mutation hd st st1 hhd
        subst h1
        exact condSetOps_none_no_mutation tl _ rs1 _ htl
          (fun r hr => hall r (List.mem_cons_of_mem _ hr))
end

/-- C2: composite rendering — recursive operand rendering against the
shared params, empty operands dropped without trace, parentheses only
around more than one surviving fragment; in particular
`Composite(OR, [A])` renders exactly like `A`, and a composite with no
surviving operand renders `undefined`. -/
theorem claim2_composite_rendering :
    (∀ (A : CondSet) (st : BState),
      buildCondSet (.comp .or (.cons A .nil)) st = buildCondSet A st)
  ∧ (∀ (op : LogOp) (st : BState),
      buildCondSet (.comp op .nil) st = some (none, st))
  ∧ (∀ (op : LogOp) (A : CondSet) (ops : CondSetList) (st stA : BState),
      buildCondSet A st = some (none, stA) →
      buildCondSet (.comp op (.cons A ops)) st = buildCondSet (.comp op ops) st)
  ∧ (∀ (op : LogOp) (A B : CondSet) (st st₁ st₂ : BState) (e₁ e₂ : String),
      buildCondSet A st = some (some e₁, st₁) →
      buildCondSet B st₁ = some (some e₂, st₂) →
      buildCondSet (.comp op (.cons A (.cons B .nil))) st =
        some (some ("(" ++ (e₁ ++ (" " ++ logOpName op ++ " ") ++ e₂) ++ ")"), st₂)) := by
  refine ⟨?_, fun op st => rfl, ?_, ?_⟩
  · intro A st
    rcases hA : buildCondSet A st with _ | ⟨r, st1⟩
    · simp [buildCondSet, buildCondSetOps, hA]
    · cases r with
      | none => simp [buildCondSet, buildCondSetOps, hA, jsJoin]
      | some e =>
        have he : e ≠ "" := buildCondSet_some_ne hA
        simp [buildCondSet, buildCondSetOps, hA, he, jsJoin]
  · intro op A ops st stA hA
    have hst : stA = st := condSet_none_no_mutation A st stA hA
    subst hst
    rcases hops : buildCondSetOps ops stA with _ | ⟨rs, st2⟩
    · simp [buildCondSet, buildCondSetOps, hA, hops]
    · simp [buildCondSet, buildCondSetOps, hA, hops]
  · intro op A B st st₁ st₂ e₁ e₂ h₁ h₂
    have he₁ : e₁ ≠ "" := buildCondSet_some_ne h₁
    have he₂ : e₂ ≠ "" := buildCondSet_some_ne h₂
    have hp : ("(" ++ (e₁ ++ (" " ++ logOpName op ++ " ") ++ e₂) ++ ")" : String) ≠ "" :=
      strApp_ne_empty_right _ _ (by decide)
    simp [buildCondSet, buildCondSetOps, h₁, h₂, he₁, he₂, jsJoin, hp]

/-- Witness for C2 at concrete condition sets: the singleton-`OR`
flattening and parenthesization on `{a: 1}` and `{b: 2}`. -/
theorem claim2_composite_rendering_witness :
    buildCondSet (.comp .or (.cons (.flat [("a", some (.lit (.num 1)))]) .nil)) (initState []) =
      buildCondSet (.flat [("a", some (.lit (.num 1)))]) (initState [])
  ∧ buildCondSet
      (.comp .and (.cons (.flat [("a", none)]) (.cons (.flat [("b", some (.lit (.num 2)))]) .nil)))
      (initState []) =
      buildCondSet (.comp .and (.cons (.flat [("b", some (.lit (.num 2)))]) .nil)) (initState [])
  ∧ buildCondSet
      (.comp .or (.cons (.flat [("a", some (.lit (.num 1)))])
        (.cons (.flat [("b", some (.lit (.num 2)))]) .nil)))
      (initState [7]) =
      some (some ("(" ++ ("#a = :cond_" ++ (" " ++ logOpName .or ++ " ") ++ "#b = :cond__7") ++ ")"),
        ⟨[("#a", "a"), ("#b", "b")], [(":cond_", .num 1), (":cond__7", .num 2)], []⟩) := by
  refine ⟨claim2_composite_rendering.1 (.flat [("a", some (.lit (.num 1)))]) (initState []), ?_, ?_⟩
  · exact claim2_composite_rendering.2.2.1 .and (.flat [("a", none)])
      (.cons (.flat [("b", some (.lit (.num 2)))]) .nil) (initState []) (initState []) rfl
  · exact claim2_composite_rendering.2.2.2 .or
      (.flat [("a", some (.lit (.num 1)))]) (.flat [("b", some (.lit (.num 2)))])
      (initState [7]) ⟨[("#a", "a")], [(":cond_", .num 1)], [7]⟩
      ⟨[("#a", "a"), ("#b", "b")], [(":cond_", .num 1), (":cond__7", .num 2)], []⟩
      "#a = :cond_" "#b = :cond__7" rfl rfl

/-- `addName` extends the names table monotonically along its
segment fold. -/
theorem addNameParts_mono :
    ∀ (parts : List (List Char)) (pfx : String) (ns : List (String × String))
      (rand : List Nat) (ps : List String) (ns' : List (String × String))
      (rand' : List Nat),
    addNameParts pfx parts ns rand = some (ps, ns', rand') →
    ∀ p w, alookup p ns = some w → alookup p ns' = some w := by
  intro parts
  induction parts with
  | nil =>
    intro pfx ns rand ps ns' rand' h p w hp
    cases h
    exact hp
  | cons part rest ih =>
    intro pfx ns rand ps ns' rand' h p w hp
    rw [addNameParts] at h
    split at h
    · cases h
    · dsimp only at h
      split at h
      · cases h
      · rename_i esc ns1 rand1 haum
        split at h
        · cases h
        · rename_i pieces ns2 rand2 hrec
          cases h
          exact ih _ ns1 rand1 _ _ _ hrec p w (aum_mono haum hp)

/-- `addName` preserves existing name bindings and never touches the
values table. -/
theorem addName_mono {path pfx : String} {st : BState} {n : String}
    {st' : BState} (h : addName path pfx st = some (n, st')) :
    (∀ p w, alookup p st.names = some w → alookup p st'.names = some w)
    ∧ st'.values = st.values := by
  rw [addName] at h
  split at h
  · cases h
  · rename_i pieces ns' rand' hparts
    cases h
    exact ⟨fun p w hp => addNameParts_mono _ _ _ _ _ _ _ hparts p w hp, rfl⟩

/-- `addValue` preserves existing value bindings and never touches the
names table. -/
theorem addValueBase_mono {v : JSVal} {pfx : String} {st : BState}
    {e : String} {st' : BState} (h : addValueBase v pfx st = some (e, st')) :
    (∀ p w, alookup p st.values = some w → alookup p st'.values = some w)
    ∧ st'.names = st.names := by
  rw [addValueBase] at h
  split at h
  · cases h
  · rename_i esc values' rand' haum
    cases h
    exact ⟨fun p w hp => aum_mono haum hp, rfl⟩

/-- One `addName`/`addValue` call preserves all existing bindings of
both tables. -/
theorem runCall_mono {c : BCall} {st st' : BState}
    (h : runCall c st = some st') :
    (∀ p w, alookup p st.names = some w → alookup p st'.names = some w)
    ∧ (∀ p w, alookup p st.values = some w → alookup p st'.values = some w) := by
  cases c with
  | name path pfx =>
    rw [runCall] at h
    rcases Option.map_eq_some'.mp h with ⟨⟨n, st1⟩, hadd, hsnd⟩
    cases hsnd
    obtain ⟨hm, hv⟩ := addName_mono hadd
    exact ⟨hm, fun p w hp => by rw [hv]; exact hp⟩
  | value bk v pfx =>
    rw [runCall] at h
    rcases Option.map_eq_some'.mp h with ⟨⟨e, st1⟩, hadd, hsnd⟩
    cases hsnd
    rw [addValueFor] at hadd
    obtain ⟨hm, hn⟩ := addValueBase_mono hadd
    exact ⟨fun p w hp => by rw [hn]; exact hp, hm⟩

/-- C1: across any sequence of `addName`/`addValue` calls against one
params object, an established placeholder binding is never overwritten:
old bindings survive every call verbatim; a candidate placeholder
already bound to an identical raw key/value is reused unchanged (same
placeholder, untouched table); and a candidate taken by a different raw
key/value resolves to a suffixed placeholder distinct from the
candidate, leaving the original binding in place. -/
theorem claim1_bindings_never_overwritten :
    (∀ (calls : List BCall) (st st' : BState), runCalls calls st = some st' →
      (∀ p w, alookup p st.names = some w → alookup p st'.names = some w)
      ∧ (∀ p w, alookup p st.values = some w → alookup p st'.values = some w))
  ∧ (∀ (α : Type) (eqv : α → α → Bool) (t : List (String × α)) (k : String)
      (v w : α) (rand : List Nat),
      alookup k t = some w → eqv w v = true →
      addUniqueMapping eqv t k v rand = some (k, t, rand))
  ∧ (∀ (α : Type) (eqv : α → α → Bool) (t : List (String × α)) (k : String)
      (v w : α) (rand : List Nat) (u : String) (t' : List (String × α))
      (r' : List Nat),
      alookup k t = some w → eqv w v = false →
      addUniqueMapping eqv t k v rand = some (u, t', r') →
      u ≠ k ∧ (∃ r ∈ rand, u = k ++ "_" ++ natRepr r) ∧ alookup k t' = some w) := by
  refine ⟨?_, ?_, ?_⟩
  · intro calls
    induction calls with
    | nil =>
      intro st st' h
      cases h
      exact ⟨fun p w hp => hp, fun p w hp => hp⟩
    | cons c cs ih =>
      intro st st' h
      rw [runCalls] at h
      split at h
      · cases h
      · rename_i st1 hc
        obtain ⟨hn1, hv1⟩ := runCall_mono hc
        obtain ⟨hn2, hv2⟩ := ih st1 st' h
        exact ⟨fun p w hp => hn2 p w (hn1 p w hp),
               fun p w hp => hv2 p w (hv1 p w hp)⟩
  · intro α eqv t k v w rand hl he
    exact aum_reuse hl he rand
  · intro α eqv t k v w rand u t' r' hl he h
    rcases aum_collision_suffixed hl he h with ⟨r, hr, rfl⟩
    exact ⟨suffixed_ne_base k r, ⟨r, hr, rfl⟩, aum_mono h hl⟩

/-- Witness for C1 at concrete calls: an `addName` call preserves the
existing `#a ↦ a` binding; rebinding `#a ↦ a` reuses the placeholder
unchanged; binding raw key `a` when `#a` is taken by `b` yields the
distinct suffixed placeholder `#a_5` while `#a ↦ b` survives. -/
theorem claim1_bindings_never_overwritten_witness :
    alookup "#a" ([("#a", "a"), ("#b", "b")] : List (String × String)) = some "a"
  ∧ addUniqueMapping (fun a b : String => a == b) [("#a", "a")] "#a" "a" [] =
      some ("#a", [("#a", "a")], [])
  ∧ ("#a_5" : String) ≠ "#a"
  ∧ alookup "#a" ([("#a", "b"), ("#a_5", "a")] : List (String × String)) = some "b" := by
  refine ⟨?_, ?_, ?_, ?_⟩
  · exact (claim1_bindings_never_overwritten.1 [BCall.name "b" ""]
      ⟨[("#a", "a")], [], []⟩ ⟨[("#a", "a"), ("#b", "b")], [], []⟩ rfl).1 "#a" "a" rfl
  · exact claim1_bindings_never_overwritten.2.1 String (fun a b => a == b)
      [("#a", "a")] "#a" "a" "a" [] rfl rfl
  · exact (claim1_bindings_never_overwritten.2.2 String (fun a b => a == b)
      [("#a", "b")] "#a" "a" "b" [5] "#a_5" [("#a", "b"), ("#a_5", "a")] [] rfl rfl rfl).1
  · exact (claim1_bindings_never_overwritten.2.2 String (fun a b => a == b)
      [("#a", "b")] "#a" "a" "b" [5] "#a_5" [("#a", "b"), ("#a_5", "a")] [] rfl rfl rfl).2.2

/-! ## The collision-retry loop on a fully-occupied suffix space (C9) -/

theorem natReprGo_digits :
    ∀ (f n : Nat) (c : Char), c ∈ natReprGo f n → ∃ d, c = digitChar d := by
  intro f
  induction f with
  | zero =>
    intro n c hc
    cases hc
  | succ f ih =>
    intro n c hc
    rw [natReprGo] at hc
    split at hc
    · rcases List.mem_singleton.mp hc with rfl
      exact ⟨n, rfl⟩
    · rcases List.mem_append.mp hc with h1 | h2
      · exact ih _ c h1
      · rcases List.mem_singleton.mp h2 with rfl
        exact ⟨n % 10, rfl⟩

theorem digitChar_not_special (d : Nat) :
    digitChar d ≠ '#' ∧ digitChar d ≠ '.' ∧ digitChar d ≠ '[' ∧
    digitChar d ≠ ':' ∧ digitChar d ≠ 'b' := by
  have h10 : d % 10 < 10 := Nat.mod_lt _ (by norm_num)
  have hall : ∀ e, e < 10 →
      Char.ofNat (48 + e) ≠ '#' ∧ Char.ofNat (48 + e) ≠ '.' ∧
      Char.ofNat (48 + e) ≠ '[' ∧ Char.ofNat (48 + e) ≠ ':' ∧
      Char.ofNat (48 + e) ≠ 'b' := by decide
  exact hall (d % 10) h10

theorem natRepr_chars_not_special {r : Nat} {c : Char}
    (hc : c ∈ (natRepr r).data) :
    c ≠ '#' ∧ c ≠ '.' ∧ c ≠ '[' ∧ c ≠ ':' ∧ c ≠ 'b' := by
  obtain ⟨d, rfl⟩ := natReprGo_digits (r + 1) r c hc
  exact digitChar_not_special d

theorem contains_eq_false_of_not_mem {a : Char} :
    ∀ {l : List Char}, a ∉ l → l.contains a = false := by
  intro l
  induction l with
  | nil => intro _; rfl
  | cons x rest ih =>
    intro h
    have hrest : a ∉ rest := fun hm => h (List.mem_cons_of_mem _ hm)
    have hax : (a == x) = false := by
      cases hb : (a == x) with
      | false => rfl
      | true =>
        exfalso
        apply h
        rw [beq_iff_eq.mp hb]
        exact List.mem_cons_self x rest
    show List.elem a (x :: rest) = false
    rw [List.elem, hax]
    exact ih hrest

theorem splitChar_not_mem {ch : Char} :
    ∀ {l : List Char}, ch ∉ l → splitChar ch l = [l] := by
  intro l
  induction l with
  | nil => intro _; rfl
  | cons a rest ih =>
    intro h
    have ha : a ≠ ch := fun he => h (he ▸ List.mem_cons_self a rest)
    have hrest : ch ∉ rest := fun hm => h (List.mem_cons_of_mem _ hm)
    rw [splitChar, if_neg ha, ih hrest]

/-- Goodness of the concrete keys used in the C9 construction. -/
theorem c9Key_good (r : Nat) : GoodKey ("a_" ++ natRepr r) := by
  have hdata : ("a_" ++ natRepr r).data = 'a' :: '_' :: (natRepr r).data := by
    rw [String.data_append]
    rfl
  rw [GoodKey, hdata]
  refine ⟨by decide, ?_, ?_, ?_⟩
  · intro hm
    rcases List.mem_cons.mp hm with h | hm
    · cases h
    · rcases List.mem_cons.mp hm with h | hm
      · cases h
      · exact (natRepr_chars_not_special hm).1 rfl
  · intro hm
    rcases List.mem_cons.mp hm with h | hm
    · cases h
    · rcases List.mem_cons.mp hm with h | hm
      · cases h
      · exact (natRepr_chars_not_special hm).2.1 rfl
  · intro hm
    rcases List.mem_cons.mp hm with h | hm
    · cases h
    · rcases List.mem_cons.mp hm with h | hm
      · cases h
      · exact (natRepr_chars_not_special hm).2.2.1 rfl

theorem c9Keys_good : ∀ k ∈ c9Keys, GoodKey k := by
  intro k hk
  rcases List.mem_cons.mp hk with rfl | hk
  · rw [GoodKey]
    exact ⟨by decide, by decide, by decide, by decide⟩
  · rcases List.mem_map.mp hk with ⟨r, _, rfl⟩
    exact c9Key_good r

theorem a_suffix_ne_b (r : Nat) : ("a_" ++ natRepr r : String) ≠ "b" := by
  intro h
  have hd := congrArg String.data h
  rw [String.data_append] at hd
  cases hd

/-- No binding can be found once the lookup has failed. -/
theorem alookup_none_not_mem {l : List (String × α)} {p : String}
    (h : alookup p l = none) : ∀ w, (p, w) ∉ l := by
  induction l with
  | nil => intro w hm; cases hm
  | cons e rest ih =>
    obtain ⟨k0, v0⟩ := e
    intro w hm
    simp only [alookup] at h
    rcases List.mem_cons.mp hm with heq | hm2
    · cases heq
      rw [if_pos rfl] at h
      cases h
    · by_cases hpk : p = k0
      · rw [if_pos hpk] at h
        cases h
      · rw [if_neg hpk] at h
        exact ih h w hm2

/-- Appending a fresh binding makes it visible to lookup. -/
theorem alookup_append_fresh {l : List (String × α)} {p : String} {v : α}
    (h : alookup p l = none) : alookup p (l ++ [(p, v)]) = some v := by
  induction l with
  | nil => simp [alookup]
  | cons e rest ih =>
    obtain ⟨k0, v0⟩ := e
    simp only [alookup, List.cons_append] at h ⊢
    by_cases hpk : p = k0
    · rw [if_pos hpk] at h
      cases h
    · rw [if_neg hpk] at h ⊢
      exact ih h

theorem addOperand_name_plain (c : Char) (cs : List Char) (hc : c ≠ ':')
    (hcontains : (c :: cs).contains '#' = false) (st : BState) :
    addOperand .cond (.str ⟨c :: cs⟩) .name "" st = addName ⟨c :: cs⟩ "" st := by
  rw [addOperand]
  split
  · rename_i tail heq
    exfalso
    cases heq
    exact hc rfl
  · rename_i cs2 heq
    rw [hcontains]
    rfl

/-- Rendering one flat entry `key = 1` with a well-behaved key and a
names table of escaped-raw-key bindings: the name placeholder `#key` is
bound fresh or idempotently reused, the single value placeholder
`:cond_` holds `1`, the random stream is untouched, and all prior name
bindings survive. -/
theorem c9_entry_step (k : String) (hk : GoodKey k) (ns : List (String × String))
    (vs : List (String × JSVal)) (rand : List Nat)
    (hinv : NamesInv ns) (hvs : vs = [] ∨ vs = [(":cond_", JSVal.num 1)]) :
    ∃ e ns',
      buildCond (.comparator "=" (.num 1)) k ⟨ns, vs, rand⟩
        = some (e, ⟨ns', [(":cond_", JSVal.num 1)], rand⟩)
      ∧ NamesInv ns'
      ∧ (∀ p w, alookup p ns = some w → alookup p ns' = some w)
      ∧ alookup ("#" ++ k) ns' = some k := by
  obtain ⟨d⟩ := k
  rcases d with _ | ⟨c, cs⟩
  · rw [GoodKey] at hk
    cases hk
  · rw [GoodKey] at hk
    obtain ⟨hc, hhash, hdot, hbr⟩ := hk
    have hsplit1 : splitChar '.' ((⟨c :: cs⟩ : String).data) = [c :: cs] :=
      splitChar_not_mem hdot
    have hsplit2 : splitChar '[' (c :: cs) = [c :: cs] :=
      splitChar_not_mem hbr
    have hcontains : (c :: cs).contains '#' = false :=
      contains_eq_false_of_not_mem hhash
    have hcand : ("#" ++ "" ++ (⟨c :: cs⟩ : String)) = "#" ++ (⟨c :: cs⟩ : String) := rfl
    -- outcome of the names-table insertion
    have haum : ∃ esc ns',
        addUniqueMapping (fun a b : String => a == b) ns
          ("#" ++ "" ++ (⟨c :: cs⟩ : String)) (⟨c :: cs⟩ : String) rand
          = some (esc, ns', rand)
        ∧ NamesInv ns'
        ∧ (∀ p w, alookup p ns = some w → alookup p ns' = some w)
        ∧ alookup ("#" ++ (⟨c :: cs⟩ : String)) ns'
            = some (⟨c :: cs⟩ : String) := by
      rw [hcand]
      rcases hl : alookup ("#" ++ (⟨c :: cs⟩ : String)) ns with _ | w
      · refine ⟨_, _, aum_fresh hl rand, ?_, ?_, alookup_append_fresh hl⟩
        · intro e he
          rcases List.mem_append.mp he with h1 | h2
          · exact hinv e h1
          · rcases List.mem_singleton.mp h2 with rfl
            rfl
        · intro p w hp
          exact alookup_append_left hp _
      · have hmem := alookup_mem hl
        have heq : "#" ++ (⟨c :: cs⟩ : String) = "#" ++ w := hinv _ hmem
        have hwk : w = (⟨c :: cs⟩ : String) := (strApp_left_cancel heq).symm
        subst hwk
        exact ⟨_, _, aum_reuse hl (by simp) rand, hinv, fun p w hp => hp, hl⟩
    obtain ⟨esc, ns', haum, hinv', hmono, hpres⟩ := haum
    refine ⟨esc ++ " " ++ "=" ++ " " ++ ":cond_", ns', ?_, hinv', hmono, hpres⟩
    rw [buildCond, buildComparator, addOperand_name_plain c cs hc hcontains]
    rw [addName, hsplit1, addNameParts, hsplit2]
    dsimp only
    rw [haum]
    dsimp only [addNameParts, jsJoin]
    have hvalue : addOperand .cond (.num 1) .value ""
        (⟨ns', vs, rand⟩ : BState)
        = some (":cond_", ⟨ns', [(":cond_", JSVal.num 1)], rand⟩) := by
      show addValueBase (.num 1) ("cond_" ++ "") ⟨ns', vs, rand⟩
        = some (":cond_", ⟨ns', [(":cond_", JSVal.num 1)], rand⟩)
      rw [addValueBase]
      rcases hvs with rfl | rfl
      · rw [aum_fresh (show alookup (":" ++ ("cond_" ++ ""))
            ([] : List (String × JSVal)) = none from rfl) rand]
        rfl
      · rw [aum_reuse (show alookup (":" ++ ("cond_" ++ ""))
            [(":cond_", JSVal.num 1)] = some (JSVal.num 1) from rfl)
            (show jsStrictEq (JSVal.num 1) (JSVal.num 1) = true from rfl) rand]
        rfl
    rw [hvalue]

/-- Rendering the whole flat mapping `{k = 1 | k ∈ ks}`: every escaped
key is bound, prior bindings survive, and the random stream is never
consumed. -/
theorem c9_fold :
    ∀ (ks : List String) (ns : List (String × String))
      (vs : List (String × JSVal)) (rand : List Nat),
    (∀ k ∈ ks, GoodKey k) → NamesInv ns →
    (vs = [] ∨ vs = [(":cond_", JSVal.num 1)]) →
    ∃ es ns' vs',
      buildFlatEntries (ks.map (fun k => (k, some (.lit (.num 1))))) ⟨ns, vs, rand⟩
        = some (es, ⟨ns', vs', rand⟩)
      ∧ NamesInv ns'
      ∧ (vs' = [] ∨ vs' = [(":cond_", JSVal.num 1)])
      ∧ (∀ p w, alookup p ns = some w → alookup p ns' = some w)
      ∧ (∀ k ∈ ks, alookup ("#" ++ k) ns' = some k) := by
  intro ks
  induction ks with
  | nil =>
    intro ns vs rand _ hinv hvs
    exact ⟨[], ns, vs, rfl, hinv, hvs, fun p w hp => hp,
      fun k hk => absurd hk (List.not_mem_nil k)⟩
  | cons k0 rest ih =>
    intro ns vs rand hgood hinv hvs
    obtain ⟨e, ns1, hbc, hinv1, hmono1, hpres1⟩ :=
      c9_entry_step k0 (hgood k0 (List.mem_cons_self _ _)) ns vs rand hinv hvs
    obtain ⟨es, ns', vs', hrest, hinv', hvs', hmono', hpres'⟩ :=
      ih ns1 [(":cond_", JSVal.num 1)] rand
        (fun k hk => hgood k (List.mem_cons_of_mem _ hk)) hinv1 (Or.inr rfl)
    refine ⟨e :: es, ns', vs', ?_, hinv', hvs',
      fun p w hp => hmono' p w (hmono1 p w hp), ?_⟩
    · show buildFlatEntries ((k0, some (.lit (.num 1))) ::
        rest.map (fun k => (k, some (.lit (.num 1))))) ⟨ns, vs, rand⟩ = _
      rw [buildFlatEntries]
      rw [show condFrom (CondVal.lit (JSVal.num 1))
        = Cond.comparator "=" (JSVal.num 1) from rfl]
      rw [hbc]
      dsimp only
      rw [hrest]
    · intro k hk
      rcases List.mem_cons.mp hk with rfl | hk2
      · exact hmono' _ _ hpres1
      · exact hpres' k hk2

/-- A blocked step of the collision loop with the empty stream. -/
theorem aumAux_blocked_nil {eqv : α → α → Bool} {t : List (String × α)}
    {k : String} {v : α} {cand : String} {w : α}
    (hc : alookup cand t = some w) (he : eqv w v = false) :
    addUniqueMappingAux eqv t k v cand [] = none := by
  rw [addUniqueMappingAux]
  split
  · rename_i hnone
    rw [hc] at hnone
    cases hnone
  · rename_i w0 hsome
    rw [hc] at hsome
    cases hsome
    rw [if_neg (by simp [he])]

/-- A blocked step of the collision loop consumes one draw and retries
with the suffixed candidate derived from the original key. -/
theorem aumAux_blocked_cons {eqv : α → α → Bool} {t : List (String × α)}
    {k : String} {v : α} {cand : String} {w : α}
    (hc : alookup cand t = some w) (he : eqv w v = false)
    (r : Nat) (rest : List Nat) :
    addUniqueMappingAux eqv t k v cand (r :: rest)
      = addUniqueMappingAux eqv t k v (k ++ "_" ++ natRepr r) rest := by
  rw [addUniqueMappingAux]
  split
  · rename_i hnone
    rw [hc] at hnone
    cases hnone
  · rename_i w0 hsome
    rw [hc] at hsome
    cases hsome
    rw [if_neg (by simp [he])]

theorem strBeq_false_of_ne {a b : String} (h : a ≠ b) : (a == b) = false := by
  cases hb : (a == b) with
  | false => rfl
  | true => exact absurd (beq_iff_eq.mp hb) h

/-- With the base candidate `#a` and all 1000 suffixed candidates
`#a_0` … `#a_999` bound to raw keys different from `"b"`, the
collision loop for `("#a", "b")` can never exit, for every finite
sequence of in-range random draws. -/
theorem c9_blocked (ns' : List (String × String))
    (hsuf : ∀ r, r < 1000 →
      alookup ("#a" ++ "_" ++ natRepr r) ns' = some ("a_" ++ natRepr r)) :
    ∀ (rand : List Nat), (∀ x ∈ rand, x < 1000) →
    ∀ (cand w : String), alookup cand ns' = some w → w ≠ "b" →
    addUniqueMappingAux (fun a b : String => a == b) ns' "#a" "b" cand rand
      = none := by
  intro rand
  induction rand with
  | nil =>
    intro _ cand w hc hw
    exact aumAux_blocked_nil hc (strBeq_false_of_ne hw)
  | cons r rest ih =>
    intro hall cand w hc hw
    rw [aumAux_blocked_cons hc (strBeq_false_of_ne hw) r rest]
    have hr : r < 1000 := hall r (List.mem_cons_self _ _)
    exact ih (fun x hx => hall x (List.mem_cons_of_mem _ hx))
      ("#a" ++ "_" ++ natRepr r) ("a_" ++ natRepr r) (hsuf r hr)
      (a_suffix_ne_b r)

/-- C9 counterexample: rendering the 1001-key flat condition mapping
`{a: 1, a_0: 1, …, a_999: 1}` through the public
`buildConditionExpression` reaches a params table on which the
collision-retry loop of `addUniqueMapping` for candidate key `#a` and
value `"b"` can never terminate: every draw of
`Math.floor(Math.random() * 1000)` lands on an occupied suffixed
placeholder bound to a different raw key, so no finite sequence of
draws exits the `while` loop. -/
theorem claim9_termination_counterexample :
    ∃ (r : Option String) (ns' : List (String × String))
      (vs' : List (String × JSVal)),
      buildConditionExpression c9CondSet (initState []) = some (r, ⟨ns', vs', []⟩)
      ∧ ∀ (rand : List Nat), (∀ x ∈ rand, x < 1000) →
          addUniqueMapping (fun a b : String => a == b) ns' "#a" "b" rand
            = none := by
  obtain ⟨es, ns', vs', hfe, hinv', hvs', hmono', hpres'⟩ :=
    c9_fold c9Keys [] [] [] c9Keys_good
      (fun e he => absurd he (List.not_mem_nil e)) (Or.inl rfl)
  refine ⟨if jsJoin " AND " es = "" then none else some (jsJoin " AND " es),
    ns', vs', ?_, ?_⟩
  · rw [buildConditionExpression, c9CondSet, buildCondSet,
      show initState [] = (⟨[], [], []⟩ : BState) from rfl, hfe]
  · intro rand hall
    have hsuf : ∀ r, r < 1000 →
        alookup ("#a" ++ "_" ++ natRepr r) ns' = some ("a_" ++ natRepr r) := by
      intro r hr
      have hm : ("a_" ++ natRepr r) ∈ c9Keys :=
        List.mem_cons_of_mem _ (List.mem_map.mpr ⟨r, List.mem_range.mpr hr, rfl⟩)
      have h1 := hpres' _ hm
      rw [← strApp_assoc] at h1
      exact h1
    have hbase : alookup "#a" ns' = some "a" :=
      hpres' "a" (List.mem_cons_self _ _)
    rw [addUniqueMapping]
    exact c9_blocked ns' hsuf rand hall "#a" "a" hbase (by decide)

/-- C9 amended: the collision loop terminates on the first attempt —
without consuming any randomness — whenever the candidate placeholder
is unused or already bound to a strictly-equal value (in particular
whenever no two distinct raw keys or values share a candidate); but
termination is not guaranteed in general, see the counterexample. -/
theorem claim9_first_attempt_success :
    ∀ (α : Type) (eqv : α → α → Bool) (t : List (String × α)) (k : String)
      (v : α) (rand : List Nat),
      (alookup k t = none ∨ ∃ w, alookup k t = some w ∧ eqv w v = true) →
      ∃ t', addUniqueMapping eqv t k v rand = some (k, t', rand) := by
  intro α eqv t k v rand h
  rcases h with hl | ⟨w, hl, he⟩
  · exact ⟨t ++ [(k, v)], aum_fresh hl rand⟩
  · exact ⟨t, aum_reuse hl he rand⟩

/-- Witness for C9's amended statement: a fresh candidate binds with no
draws consumed. -/
theorem claim9_first_attempt_success_witness :
    ∃ t', addUniqueMapping (fun a b : String => a == b) [] "#a" "a" [5, 6]
      = some ("#a", t', [5, 6]) :=
  claim9_first_attempt_success String (fun a b => a == b) [] "#a" "a" [5, 6]
    (Or.inl rfl)

/-! ## Grouping of update clauses (C4) -/

theorem kindsFO_foldl_mem :
    ∀ (ps : List (ActionType × String)) (acc : List ActionType) (x : ActionType),
    x ∈ ps.foldl (fun acc p => if p.1 ∈ acc then acc else acc ++ [p.1]) acc ↔
      x ∈ acc ∨ x ∈ ps.map Prod.fst := by
  intro ps
  induction ps with
  | nil =>
    intro acc x
    simp
  | cons p rest ih =>
    intro acc x
    rw [List.foldl_cons, ih]
    constructor
    · rintro (hx | hx)
      · by_cases hp : p.1 ∈ acc
        · rw [if_pos hp] at hx
          exact Or.inl hx
        · rw [if_neg hp] at hx
          rcases List.mem_append.mp hx with h1 | h2
          · exact Or.inl h1
          · rcases List.mem_singleton.mp h2 with rfl
            exact Or.inr (by simp)
      · exact Or.inr (by simp [hx])
    · rintro (hx | hx)
      · left
        by_cases hp : p.1 ∈ acc
        · rwa [if_pos hp]
        · rw [if_neg hp]
          exact List.mem_append.mpr (Or.inl hx)
      · rcases List.mem_map.mp hx with ⟨q, hq, rfl⟩
        rcases List.mem_cons.mp hq with rfl | hq2
        · left
          by_cases hp : q.1 ∈ acc
          · rwa [if_pos hp]
          · rw [if_neg hp]
            simp
        · exact Or.inr (List.mem_map.mpr ⟨q, hq2, rfl⟩)

theorem kindsFO_foldl_nodup :
    ∀ (ps : List (ActionType × String)) (acc : List ActionType),
    acc.Nodup →
    (ps.foldl (fun acc p => if p.1 ∈ acc then acc else acc ++ [p.1]) acc).Nodup := by
  intro ps
  induction ps with
  | nil => intro acc h; exact h
  | cons p rest ih =>
    intro acc h
    rw [List.foldl_cons]
    apply ih
    by_cases hp : p.1 ∈ acc
    · rwa [if_pos hp]
    · rw [if_neg hp]
      rw [List.nodup_append]
      exact ⟨h, List.nodup_singleton _, by
        intro a ha hb
        rcases List.mem_singleton.mp hb with rfl
        exact hp ha⟩

theorem kindsFO_nodup (ps : List (ActionType × String)) :
    (kindsFirstOccurrence ps).Nodup :=
  kindsFO_foldl_nodup ps [] (List.nodup_nil)

theorem mem_kindsFO {ps : List (ActionType × String)} {x : ActionType} :
    x ∈ kindsFirstOccurrence ps ↔ x ∈ ps.map Prod.fst := by
  rw [kindsFirstOccurrence, kindsFO_foldl_mem]
  simp

theorem addAction_not_mem :
    ∀ (m : List (ActionType × List String)) (t : ActionType) (a : String),
    t ∉ m.map Prod.fst → addAction m t a = m ++ [(t, [a])] := by
  intro m
  induction m with
  | nil => intro t a _; rfl
  | cons b rest ih =>
    obtain ⟨t0, items⟩ := b
    intro t a h
    simp only [List.map_cons, List.mem_cons] at h
    push_neg at h
    rw [addAction, if_neg h.1, ih t a h.2]
    rfl

theorem addAction_mem_map :
    ∀ (ks : List ActionType) (g : ActionType → List String) (t : ActionType) (a : String),
    ks.Nodup → t ∈ ks →
    addAction (ks.map (fun u => (u, g u))) t a =
      ks.map (fun u => (u, if u = t then g u ++ [a] else g u)) := by
  intro ks
  induction ks with
  | nil =>
    intro g t a _ hm
    cases hm
  | cons k rest ih =>
    intro g t a hnd hm
    rw [List.map_cons, List.map_cons, addAction]
    rcases List.mem_cons.mp hm with rfl | hm2
    · rw [if_pos rfl, if_pos rfl]
      congr 1
      have hrest : ∀ u ∈ rest, u ≠ t := by
        intro u hu he
        subst he
        exact (List.nodup_cons.mp hnd).1 hu
      apply List.map_congr_left
      intro u hu
      rw [if_neg (hrest u hu)]
    · have hkt : t ≠ k := by
        intro he
        subst he
        exact (List.nodup_cons.mp hnd).1 hm2
      rw [if_neg hkt, if_neg (fun he => hkt he.symm)]
      rw [ih g t a (List.nodup_cons.mp hnd).2 hm2]

theorem itemsOfKind_not_mem {t : ActionType} :
    ∀ {ps : List (ActionType × String)}, t ∉ ps.map Prod.fst →
    itemsOfKind t ps = [] := by
  intro ps
  induction ps with
  | nil => intro _; rfl
  | cons p rest ih =>
    intro h
    simp only [List.map_cons, List.mem_cons] at h
    push_neg at h
    rw [itemsOfKind, List.filter_cons]
    rw [if_neg (by simp only [decide_eq_true_eq, beq_iff_eq]; exact fun he => h.1 he.symm)]
    exact ih h.2

theorem itemsOfKind_append_single (t : ActionType)
    (ps : List (ActionType × String)) (p : ActionType × String) :
    itemsOfKind t (ps ++ [p]) =
      itemsOfKind t ps ++ (if p.1 = t then [p.2] else []) := by
  rw [itemsOfKind, itemsOfKind, List.filter_append, List.map_append]
  congr 1
  rw [List.filter_cons]
  by_cases hp : p.1 = t
  · rw [if_pos (by simp [hp]), if_pos hp]
    rfl
  · rw [if_neg (by simp [hp]), if_neg hp]
    rfl

/-- The `Map`-bucket accumulation groups the emitted `(kind, item)`
pairs by kind, kinds in order of first occurrence, items in input
order. -/
theorem foldBuckets_eq (ps : List (ActionType × String)) :
    foldBuckets ps =
      (kindsFirstOccurrence ps).map (fun t => (t, itemsOfKind t ps)) := by
  induction ps using List.reverseRecOn with
  | nil => rfl
  | append_singleton l p ih =>
    rw [foldBuckets, List.foldl_append, ← foldBuckets, ih, List.foldl_cons,
      List.foldl_nil]
    rw [show kindsFirstOccurrence (l ++ [p]) =
        (if p.1 ∈ kindsFirstOccurrence l then kindsFirstOccurrence l
          else kindsFirstOccurrence l ++ [p.1]) by
      rw [kindsFirstOccurrence, List.foldl_append, ← kindsFirstOccurrence]
      rfl]
    by_cases hp : p.1 ∈ kindsFirstOccurrence l
    · rw [if_pos hp]
      rw [addAction_mem_map _ _ _ _ (kindsFO_nodup l) hp]
      apply List.map_congr_left
      intro u hu
      rw [itemsOfKind_append_single]
      by_cases hup : u = p.1
      · subst hup
        rw [if_pos rfl, if_pos rfl]
      · rw [if_neg hup, if_neg (fun he => hup he.symm), List.append_nil]
    · rw [if_neg hp]
      have hfst : (List.map (fun t => (t, itemsOfKind t l))
          (kindsFirstOccurrence l)).map Prod.fst = kindsFirstOccurrence l := by
        rw [List.map_map]
        exact List.map_id _
      rw [addAction_not_mem _ p.1 p.2 (by rw [hfst]; exact hp)]
      rw [List.map_append]
      congr 1
      · apply List.map_congr_left
        intro u hu
        rw [itemsOfKind_append_single]
        have hup : ¬p.1 = u := fun he => hp (he ▸ hu)
        rw [if_neg hup, List.append_nil]
      · rw [List.map_singleton, itemsOfKind_append_single, if_pos rfl]
        rw [itemsOfKind_not_mem (fun hm => hp (mem_kindsFO.mpr hm))]
        rfl

/-- C4 counterexample: the update expression's clauses follow the
first-occurrence order of the action kinds in the input, not the fixed
SET, REMOVE, ADD, DELETE order: `{b: UpdateAction.remove(), a: 42}`
renders `REMOVE #b SET #a = :val_set`, not
`SET #a = :val_set REMOVE #b` as the claim requires. -/
theorem claim4_kind_order_counterexample :
    (buildUpdateExpression [("b", .act .remove), ("a", .lit (.num 42))] (initState []) =
      some (some "REMOVE #b SET #a = :val_set",
        ⟨[("#b", "b"), ("#a", "a")], [(":val_set", .num 42)], []⟩))
  ∧ ("REMOVE #b SET #a = :val_set" : String) ≠ "SET #a = :val_set REMOVE #b" :=
  ⟨rfl, by decide⟩

/-- C4 amended: the rendered update expression emits one clause per
kind that occurs in the input, grouped, with the clauses in order of
*first occurrence* of each kind (not a fixed order), each clause
`<KIND> <item0>, <item1>, ...` and clauses joined by single spaces;
kinds absent from the input produce no clause. -/
theorem claim4_clauses_grouped_by_kind :
    (∀ ps : List (ActionType × String),
      renderBuckets (foldBuckets ps) = specGroupedRender ps)
  ∧ (∀ (t : ActionType) (ps : List (ActionType × String)),
      t ∉ ps.map Prod.fst → t ∉ (foldBuckets ps).map Prod.fst)
  ∧ (buildUpdateExpression
      [("a", .act (.add (.num 1))), ("b", .lit (.num 2)),
       ("c", .act .remove), ("d", .lit (.num 3))] (initState [9]) =
      some (some "ADD #a :val_add SET #b = :val_set, #d = :val_set_9 REMOVE #c",
        ⟨[("#a", "a"), ("#b", "b"), ("#c", "c"), ("#d", "d")],
         [(":val_add", .num 1), (":val_set", .num 2), (":val_set_9", .num 3)],
         []⟩)) := by
  refine ⟨?_, ?_, rfl⟩
  · intro ps
    rw [renderBuckets, foldBuckets_eq, specGroupedRender, List.map_map]
    rfl
  · intro t ps h hmem
    rw [foldBuckets_eq, List.map_map] at hmem
    have : t ∈ kindsFirstOccurrence ps := by
      have hid : (Prod.fst ∘ fun t => (t, itemsOfKind t ps)) = id := rfl
      rwa [hid, List.map_id] at hmem
    exact h (mem_kindsFO.mp this)

/-- Witness for C4's amended statement at a concrete pair sequence with
interleaved kinds. -/
theorem claim4_clauses_grouped_by_kind_witness :
    renderBuckets (foldBuckets
      [(.ADD, "#a :v0"), (.SET, "#b = :v1"), (.ADD, "#c :v2")]) =
      specGroupedRender
        [(.ADD, "#a :v0"), (.SET, "#b = :v1"), (.ADD, "#c :v2")]
  ∧ ActionType.DELETE ∉ (foldBuckets
      [(.ADD, "#a :v0"), (.SET, "#b = :v1"), (.ADD, "#c :v2")]).map Prod.fst :=
  ⟨claim4_clauses_grouped_by_kind.1 [(.ADD, "#a :v0"), (.SET, "#b = :v1"), (.ADD, "#c :v2")],
   claim4_clauses_grouped_by_kind.2.1 .DELETE
     [(.ADD, "#a :v0"), (.SET, "#b = :v1"), (.ADD, "#c :v2")] (by decide)⟩

end DynamoExpr


